import Mathlib

/-!
# Verification of the siddler SID playback pipeline

Shallow embedding of the core of the repository:

* the SID engine event queue and renderer from `sid_engine.cpp`
  (`drop_oldest_event`, `pop_event`, `apply_zero_delta_events`, `apply_event`,
  `sid_engine_queue_event`, `sid_engine_render_frame`,
  `sid_engine_set_channel_models`, `sid_engine_set_model`);
* the serial frame parser from `scanvideo/siddler_pico/siddler_pico.c`
  (`process_serial_stream`);
* the host-attach handshake session machine (spec-modelled, the emitting
  firmware is not among the sources).

C `uint32_t` values are modelled as `ℕ` with explicit `% 2 ^ 32` where the
source can overflow; the C `double` accumulator `g_cycle_residual` is modelled
as `ℚ` (exact arithmetic); the opaque reSID cell is modelled by the trace of
`write`/`clock` operations the engine performs on it, with the cell's
`output()` supplied as a parameter.
-/

namespace Siddler

/-- `UINT32_MAX`, the sentinel `g_cycles_to_next_event` uses for
"no pending event". -/
def UINT32_MAX : ℕ := 2 ^ 32 - 1

/-- `kEventQueueSize` from `sid_engine.cpp`. -/
def kEventQueueSize : ℕ := 8192

/-- `kC64ClockHz` from `sid_engine.cpp` (PAL C64 clock). -/
def kC64ClockHz : ℚ := 985248

/-- `TimedEvent` from `sid_engine.cpp`: one queued SID register write. -/
structure TimedEvent where
  chip_mask : ℕ
  addr : ℕ
  value : ℕ
  delta : ℕ
deriving DecidableEq, Repr

/-- One observable operation performed on the SID cells.  `clock run` records
`sid->clock(run)` issued to both cells (the source clocks cell 0 then cell 1
with the same `run`); `write cell addr value` records `g_sids[cell]->write`. -/
inductive TraceOp where
  | clock (run : ℕ)
  | write (cell : ℕ) (addr : ℕ) (value : ℕ)
deriving DecidableEq, Repr

/-- `apply_event` from `sid_engine.cpp`, as the list of cell writes it
performs: the mask is `chip_mask & 0x3`, a zero mask broadcasts to both
cells, and the address is masked to 5 bits. -/
def applyEventTrace (ev : TimedEvent) : List TraceOp :=
  let mask := if ev.chip_mask &&& 3 = 0 then 3 else ev.chip_mask &&& 3
  (if mask &&& 1 ≠ 0 then [TraceOp.write 0 (ev.addr &&& 0x1f) ev.value] else []) ++
    (if mask &&& 2 ≠ 0 then [TraceOp.write 1 (ev.addr &&& 0x1f) ev.value] else [])

/-- The mutable engine state of `sid_engine.cpp` that the queue and renderer
touch: the ring buffer `g_event_queue`/`g_event_head`/`g_event_tail` is
represented by the list of queued events in order (head first); `full` in the
ring (`advance_index(tail) == head`) corresponds to
`queue.length = kEventQueueSize - 1`. -/
structure EngineState where
  queue : List TimedEvent
  cyclesToNext : ℕ
  dropCount : ℕ
  cyclesPerSample : ℚ
  cycleResidual : ℚ
deriving DecidableEq, Repr

/-- Delta of the queue head, `UINT32_MAX` when empty (the value
`pop_event`/`drop_oldest_event` store into `g_cycles_to_next_event`). -/
def headDelta : List TimedEvent → ℕ
  | [] => UINT32_MAX
  | ev :: _ => ev.delta

/-- `drop_oldest_event` from `sid_engine.cpp`: remove the head, merge its
delta (32-bit wrapping) into the new head when one exists, bump the drop
counter, refresh `g_cycles_to_next_event`. -/
def drop_oldest_event (s : EngineState) : EngineState :=
  match s.queue with
  | [] => s
  | dropped :: rest =>
    match rest with
    | [] =>
      { s with queue := [], dropCount := s.dropCount + 1, cyclesToNext := UINT32_MAX }
    | nextEv :: tail =>
      let merged : TimedEvent := { nextEv with delta := (nextEv.delta + dropped.delta) % 2 ^ 32 }
      { s with queue := merged :: tail, dropCount := s.dropCount + 1,
               cyclesToNext := merged.delta }

/-- `pop_event` from `sid_engine.cpp`: take the head (if any) and point
`g_cycles_to_next_event` at the new head's delta (or the sentinel). -/
def pop_event (s : EngineState) : Option TimedEvent × EngineState :=
  match s.queue with
  | [] => (none, s)
  | ev :: rest => (some ev, { s with queue := rest, cyclesToNext := headDelta rest })

/-- The loop body of `apply_zero_delta_events`: pop-and-apply while the head
has `delta == 0`, tracking the `g_cycles_to_next_event` updates made by each
`pop_event`.  Returns the remaining queue, the final `cyclesToNext`, the trace
of writes, and the list of events applied. -/
def apply_zero_loop : List TimedEvent → ℕ → List TimedEvent × ℕ × List TraceOp × List TimedEvent
  | [], ctn => ([], ctn, [], [])
  | ev :: rest, ctn =>
    if ev.delta = 0 then
      let r := apply_zero_loop rest (headDelta rest)
      (r.1, r.2.1, applyEventTrace ev ++ r.2.2.1, ev :: r.2.2.2)
    else (ev :: rest, ctn, [], [])

/-- `apply_zero_delta_events` from `sid_engine.cpp`. -/
def apply_zero_delta_events (s : EngineState) : EngineState × List TraceOp × List TimedEvent :=
  let r := apply_zero_loop s.queue s.cyclesToNext
  ({ s with queue := r.1, cyclesToNext := r.2.1 }, r.2.2.1, r.2.2.2)

/-- `sid_engine_queue_event` from `sid_engine.cpp`: when the ring is full
(`advance_index(tail) == head`, i.e. `queue.length + 1 = kEventQueueSize`)
drop the oldest event first; append; and when `g_cycles_to_next_event` held
the sentinel, re-point it at the head and eagerly drain zero-delta events. -/
def sid_engine_queue_event (s : EngineState) (chip_mask addr value delta_cycles : ℕ) :
    EngineState × List TraceOp × List TimedEvent :=
  let s1 := if s.queue.length + 1 = kEventQueueSize then drop_oldest_event s else s
  let s2 := { s1 with queue := s1.queue ++ [⟨chip_mask, addr, value, delta_cycles⟩] }
  if s2.cyclesToNext = UINT32_MAX then
    apply_zero_delta_events { s2 with cyclesToNext := headDelta s2.queue }
  else (s2, [], [])

/-- The C cast `(int) d` for a `double d`, on the exact-rational model:
truncation toward zero. -/
def cTrunc (q : ℚ) : ℤ := if 0 ≤ q then ⌊q⌋ else -⌊-q⌋

/-- The saturating 16-bit clamp from `sid_engine_render_frame`. -/
def clamp16 (v : ℤ) : ℤ := if v > 32767 then 32767 else if v < -32768 then -32768 else v

/-- `(int32_t)(sample * kOutputGain)` with `kOutputGain = 1.5f`, in exact
arithmetic. -/
def applyGain (v : ℤ) : ℤ := cTrunc (3 * (v : ℚ) / 2)

/-- The per-iteration `run` of the render loop: `run = cycles_remaining`,
capped by `g_cycles_to_next_event` when an event is pending. -/
def runOf (remaining : ℕ) (s : EngineState) : ℕ :=
  if s.queue ≠ [] ∧ s.cyclesToNext ≠ UINT32_MAX ∧ s.cyclesToNext < remaining
  then s.cyclesToNext else remaining

/-- The `while (cycles_remaining > 0)` loop of `sid_engine_render_frame`.
`fuel` dominates the loop's termination measure
(`remaining + queue.length`); every result in this development is taken at a
fuel for which the measure argument guarantees the loop has run to
completion.  Returns the final state, the trace of clocks/writes, and the
events applied. -/
def render_loop : ℕ → ℕ → EngineState → EngineState × List TraceOp × List TimedEvent
  | 0, _, s => (s, [], [])
  | fuel + 1, remaining, s =>
    if remaining = 0 then (s, [], [])
    else
      let run := runOf remaining s
      if s.queue ≠ [] ∧ s.cyclesToNext ≠ UINT32_MAX then
        if run < s.cyclesToNext then
          let r := render_loop fuel (remaining - run) { s with cyclesToNext := s.cyclesToNext - run }
          (r.1, TraceOp.clock run :: r.2.1, r.2.2)
        else
          let s0 := { s with cyclesToNext := s.cyclesToNext - run }
          let p := pop_event s0
          let applyTr := match p.1 with
            | some ev => applyEventTrace ev
            | none => []
          let dv0 : List TimedEvent := match p.1 with
            | some ev => [ev]
            | none => []
          let d := apply_zero_delta_events p.2
          let r := render_loop fuel (remaining - run) d.1
          (r.1, TraceOp.clock run :: (applyTr ++ d.2.1 ++ r.2.1), dv0 ++ d.2.2 ++ r.2.2)
      else
        let r := render_loop fuel (remaining - run) s
        (r.1, TraceOp.clock run :: r.2.1, r.2.2)

/-- `sid_engine_render_frame` from `sid_engine.cpp`.  `out0`/`out1` stand for
the opaque `sid->output()` samples; `leftNull`/`rightNull` model null output
pointers.  Returns the new state, the values written through the two
pointers (`none` = pointer was null), the trace, and the applied events. -/
def sid_engine_render_frame (out0 out1 : ℤ) (leftNull rightNull : Bool) (s : EngineState) :
    EngineState × Option ℤ × Option ℤ × List TraceOp × List TimedEvent :=
  if leftNull || rightNull then
    (s, (if leftNull then none else some 0), (if rightNull then none else some 0), [], [])
  else
    let residual1 := s.cycleResidual + s.cyclesPerSample
    let cyclesI := cTrunc residual1
    let residual2 := residual1 - (cyclesI : ℚ)
    let cycles : ℤ := if cyclesI < 1 then 1 else cyclesI
    let residual3 : ℚ := if cyclesI < 1 then 0 else residual2
    let s1 := { s with cycleResidual := residual3 }
    let d := apply_zero_delta_events s1
    let remaining := cycles.toNat
    let r := render_loop (remaining + d.1.queue.length + 1) remaining d.1
    (r.1, some (clamp16 (applyGain out0)), some (clamp16 (applyGain out1)),
     d.2.1 ++ r.2.1, d.2.2 ++ r.2.2)

/-- `sid_engine_reset_queue_state` from `sid_engine.cpp`. -/
def sid_engine_reset_queue_state (s : EngineState) : EngineState :=
  { s with queue := [], cyclesToNext := UINT32_MAX, dropCount := 0, cycleResidual := 0 }

/-- The engine state right after `sid_engine_init`: queue globals at their
initial values, `g_cycles_per_sample = kC64ClockHz / sample_rate` with the
`sample_rate ? sample_rate : 44100` default, residual zeroed. -/
def initState (sample_rate_hz : ℕ) : EngineState :=
  { queue := [], cyclesToNext := UINT32_MAX, dropCount := 0,
    cyclesPerSample := kC64ClockHz / ((if sample_rate_hz = 0 then 44100 else sample_rate_hz : ℕ) : ℚ),
    cycleResidual := 0 }

/-- `sid_engine_set_channel_models` from `sid_engine.cpp`, restricted to the
chip-model pair it leaves behind (`true` = MOS6581, `false` = MOS8580);
the early return on an unchanged pair does not change the result. -/
def sid_engine_set_channel_models (left_6581 right_6581 : Bool) (_current : Bool × Bool) :
    Bool × Bool :=
  (left_6581, right_6581)

/-- `sid_engine_set_model` from `sid_engine.cpp`. -/
def sid_engine_set_model (use_6581 : Bool) (current : Bool × Bool) : Bool × Bool :=
  sid_engine_set_channel_models use_6581 use_6581 current

/-- `siddler_audio_queue_event` from `siddler_audio.cpp`: masks the address
to 5 bits before handing the event to the engine. -/
def siddler_audio_queue_event (s : EngineState) (chip_mask addr value delta_cycles : ℕ) :
    EngineState × List TraceOp × List TimedEvent :=
  sid_engine_queue_event s chip_mask (addr &&& 0x1f) value delta_cycles

/-- Sum of the `delta` fields of a list of events. -/
def deltaSum (l : List TimedEvent) : ℕ := (l.map TimedEvent.delta).sum

/-- Total cycles in the `clock` operations of a trace. -/
def clockSum : List TraceOp → ℕ
  | [] => 0
  | TraceOp.clock n :: tr => n + clockSum tr
  | TraceOp.write _ _ _ :: tr => clockSum tr

/-- `true` when a trace contains no `clock` operation. -/
def clockFree : List TraceOp → Bool
  | [] => true
  | TraceOp.clock _ :: _ => false
  | TraceOp.write _ _ _ :: tr => clockFree tr

/-- One interaction with the engine: a producer `push`
(`sid_engine_queue_event`) or one audio sample (`sid_engine_render_frame`
with both output pointers valid). -/
inductive EngineOp where
  | push (chip_mask addr value delta : ℕ)
  | render
deriving DecidableEq, Repr

/-- Run a sequence of engine operations, accumulating the applied events. -/
def runOps : EngineState → List EngineOp → EngineState × List TimedEvent
  | s, [] => (s, [])
  | s, EngineOp.push c a v d :: ops =>
    let q := sid_engine_queue_event s c a v d
    let r := runOps q.1 ops
    (r.1, q.2.2 ++ r.2)
  | s, EngineOp.render :: ops =>
    let q := sid_engine_render_frame 0 0 false false s
    let r := runOps q.1 ops
    (r.1, q.2.2.2.2 ++ r.2)

/-- Sum of the deltas handed to `sid_engine_queue_event` by a sequence. -/
def pushedDeltaSum : List EngineOp → ℕ
  | [] => 0
  | EngineOp.push _ _ _ d :: ops => d + pushedDeltaSum ops
  | EngineOp.render :: ops => pushedDeltaSum ops

/-- The events a sequence pushes, in order. -/
def pushedEvents : List EngineOp → List TimedEvent
  | [] => []
  | EngineOp.push c a v d :: ops => (⟨c, a, v, d⟩ : TimedEvent) :: pushedEvents ops
  | EngineOp.render :: ops => pushedEvents ops

/-! ## The serial frame parser (`process_serial_stream`, siddler_pico.c) -/

/-- `SID_MAGIC` from `siddler_pico.c` (`'F','D','I','S'` as a little-endian
`u32`). -/
def SID_MAGIC : ℕ := 0x53494446

/-- `sid_header_t` from `siddler_pico.c`: three unpadded `uint32_t` fields,
12 bytes on the wire. -/
structure SidHeader where
  magic : ℕ
  count : ℕ
  frame : ℕ
deriving DecidableEq, Repr

/-- The parser state that survives between `process_serial_stream` calls:
`have_header`, `current_header`, `events_remaining`. -/
structure ParserState where
  haveHeader : Bool
  header : SidHeader
  eventsRemaining : ℕ
deriving DecidableEq, Repr

/-- Little-endian `u32` from four bytes (a `memcpy` of 4 buffer bytes). -/
def le32 (b0 b1 b2 b3 : ℕ) : ℕ := b0 + 256 * b1 + 65536 * b2 + 16777216 * b3

/-- Byte `i` of the buffer (buffer accesses are always within bounds in the
source; out-of-range reads default to 0 in the model and never occur under
the length guards). -/
def byteAt (bs : List ℕ) (i : ℕ) : ℕ := bs.getD i 0

/-- The header-and-event parsing loop of `process_serial_stream`
(`siddler_pico.c`): given the buffered bytes, repeatedly
* without a header: need 12 bytes; on wrong magic or `count > 8192` advance
  by exactly one byte; otherwise latch the header;
* with a header and `events_remaining == 0`: complete the frame;
* otherwise: need 8 bytes; consume one `sid_event_t`
  (`chip, addr, value, pad, delta:u32`), hand it to
  `siddler_audio_queue_event`, completing the frame after the last one.

Returns the final parser state, the unconsumed bytes (kept by the trailing
`memmove`), the events delivered (as the raw `(chip, addr, value, delta)`
arguments of `siddler_audio_queue_event`), and the `frame` indices of the
completed frames.  `fuel` bounds the iteration count; every result below is
taken at a fuel at which the loop has provably run to completion. -/
def processStream : ℕ → ParserState → List ℕ →
    ParserState × List ℕ × List (ℕ × ℕ × ℕ × ℕ) × List ℕ
  | 0, ps, bs => (ps, bs, [], [])
  | fuel + 1, ps, bs =>
    if ps.haveHeader = false then
      if bs.length < 12 then (ps, bs, [], [])
      else
        let magic := le32 (byteAt bs 0) (byteAt bs 1) (byteAt bs 2) (byteAt bs 3)
        let count := le32 (byteAt bs 4) (byteAt bs 5) (byteAt bs 6) (byteAt bs 7)
        let frame := le32 (byteAt bs 8) (byteAt bs 9) (byteAt bs 10) (byteAt bs 11)
        if magic ≠ SID_MAGIC then processStream fuel ps bs.tail
        else if 8192 < count then processStream fuel ps bs.tail
        else processStream fuel ⟨true, ⟨magic, count, frame⟩, count⟩ (bs.drop 12)
    else
      if ps.eventsRemaining = 0 then
        let r := processStream fuel ⟨false, ps.header, 0⟩ bs
        (r.1, r.2.1, r.2.2.1, ps.header.frame :: r.2.2.2)
      else
        if bs.length < 8 then (ps, bs, [], [])
        else
          let chip := byteAt bs 0
          let addr := byteAt bs 1
          let value := byteAt bs 2
          let delta := le32 (byteAt bs 4) (byteAt bs 5) (byteAt bs 6) (byteAt bs 7)
          let er := ps.eventsRemaining - 1
          if er = 0 then
            let r := processStream fuel ⟨false, ps.header, 0⟩ (bs.drop 8)
            (r.1, r.2.1, (chip, addr, value, delta) :: r.2.2.1, ps.header.frame :: r.2.2.2)
          else
            let r := processStream fuel ⟨true, ps.header, er⟩ (bs.drop 8)
            (r.1, r.2.1, (chip, addr, value, delta) :: r.2.2.1, r.2.2.2)

/-- `process_serial_stream`'s parsing pass over the current buffer, at a fuel
(`2 * length + 2`) that exceeds the loop's iteration count (every iteration
either consumes a byte or clears `have_header`). -/
def process_serial_stream (ps : ParserState) (bs : List ℕ) :
    ParserState × List ℕ × List (ℕ × ℕ × ℕ × ℕ) × List ℕ :=
  processStream (2 * bs.length + 2) ps bs

/-- The parser state after reset (`have_header = false`). -/
def cleanParser : ParserState := ⟨false, ⟨0, 0, 0⟩, 0⟩

/-- Little-endian encoding of a `u32` into four bytes. -/
def toLE4 (n : ℕ) : List ℕ := [n % 256, n / 256 % 256, n / 65536 % 256, n / 16777216 % 256]

/-- A 12-byte `sid_header_t` as the device declares it
(`magic:u32, count:u32, frame:u32`). -/
def encodeHeader (count frame : ℕ) : List ℕ := toLE4 SID_MAGIC ++ toLE4 count ++ toLE4 frame

/-- An 8-byte `sid_event_t` as the device declares it
(`chip:u8, addr:u8, value:u8, pad:u8, delta:u32`). -/
def encodeEvent (chip addr value delta : ℕ) : List ℕ := [chip, addr, value, 0] ++ toLE4 delta

/-- Encode a list of wire events. -/
def encodeEvents : List (ℕ × ℕ × ℕ × ℕ) → List ℕ
  | [] => []
  | (c, a, v, d) :: es => encodeEvent c a v d ++ encodeEvents es

/-- A full device-format frame: 12-byte header + 8-byte events. -/
def encodeFrame (frame : ℕ) (es : List (ℕ × ℕ × ℕ × ℕ)) : List ℕ :=
  encodeHeader es.length frame ++ encodeEvents es

/-- A frame in the 10-byte compact header form some hosts use
(`magic:u32, count:u16, frame:u32`, packed), with the same 8-byte events. -/
def encodeFrame10 (frame : ℕ) (es : List (ℕ × ℕ × ℕ × ℕ)) : List ℕ :=
  toLE4 SID_MAGIC ++ [es.length % 256, es.length / 256 % 256] ++ toLE4 frame ++
    encodeEvents es

/-- Field bounds a well-formed wire event satisfies (bytes are bytes, the
delta is a `u32`). -/
def validWireEvent (e : ℕ × ℕ × ℕ × ℕ) : Prop :=
  e.1 < 256 ∧ e.2.1 < 256 ∧ e.2.2.1 < 256 ∧ e.2.2.2 < 2 ^ 32

instance (e : ℕ × ℕ × ℕ × ℕ) : Decidable (validWireEvent e) := by
  unfold validWireEvent; infer_instance

/-! ## The host-attach handshake (spec-modelled)

`Modelled from the spec:` the firmware that emits the `"[DUMP] READY\r\n"`
handshake line is not among the sources under `src/` — only its host-side
callers are (the `wait_for_ready` loops of `tools/sid2serial.c` and
`tools/ssf2serial.c`, which block until a line containing `READY` arrives).
The session state machine below is taken verbatim from spec §4.8/§6:
`DISCONNECTED --attach--> AWAITING_HANDSHAKE --send READY--> STREAMING`,
with any detach returning to `DISCONNECTED`. -/

/-- Connection lifecycle states (spec §4.8). -/
inductive LinkState where
  | disconnected
  | awaitingHandshake
  | streaming
deriving DecidableEq, Repr

/-- Environment events driving the lifecycle: host attach, host detach, and
one pass of the device's main loop (`poll`), during which the device sends
the handshake if it is still owed. -/
inductive HostEvent where
  | attach
  | detach
  | poll
deriving DecidableEq, Repr

/-- `Modelled from the spec:` the handshake line `"[DUMP] READY\r\n"`,
bytes `5B 44 55 4D 50 5D 20 52 45 41 44 59 0D 0A`. -/
def readyLine : List ℕ :=
  [0x5B, 0x44, 0x55, 0x4D, 0x50, 0x5D, 0x20, 0x52, 0x45, 0x41, 0x44, 0x59, 0x0D, 0x0A]

/-- `Modelled from the spec:` one lifecycle transition, returning the bytes
the device transmits on its CDC out-endpoint during the step. -/
def linkStep : LinkState → HostEvent → LinkState × List ℕ
  | _, HostEvent.detach => (LinkState.disconnected, [])
  | LinkState.disconnected, HostEvent.attach => (LinkState.awaitingHandshake, [])
  | LinkState.awaitingHandshake, HostEvent.attach => (LinkState.awaitingHandshake, [])
  | LinkState.streaming, HostEvent.attach => (LinkState.streaming, [])
  | LinkState.awaitingHandshake, HostEvent.poll => (LinkState.streaming, readyLine)
  | LinkState.disconnected, HostEvent.poll => (LinkState.disconnected, [])
  | LinkState.streaming, HostEvent.poll => (LinkState.streaming, [])

/-- Run the lifecycle machine, collecting the per-step transmissions. -/
def linkRun : LinkState → List HostEvent → LinkState × List (List ℕ)
  | st, [] => (st, [])
  | st, e :: es =>
    let p := linkStep st e
    let r := linkRun p.1 es
    (r.1, p.2 :: r.2)

/-- How many steps of a run transmitted the handshake line. -/
def readyCount (emissions : List (List ℕ)) : ℕ :=
  (emissions.filter (fun l => l = readyLine)).length

/-! ## Theorems -/

/-! ### Trace helper lemmas -/

lemma clockSum_append (a b : List TraceOp) : clockSum (a ++ b) = clockSum a + clockSum b := by
  induction a with
  | nil => simp [clockSum]
  | cons op tr ih => cases op <;> simp [clockSum, ih] <;> omega

lemma clockFree_append (a b : List TraceOp) :
    clockFree (a ++ b) = (clockFree a && clockFree b) := by
  induction a with
  | nil => simp [clockFree]
  | cons op tr ih => cases op <;> simp [clockFree, ih]

lemma applyEventTrace_clockFree (ev : TimedEvent) : clockFree (applyEventTrace ev) = true := by
  simp only [applyEventTrace, clockFree_append]
  split_ifs <;> simp [clockFree]

lemma clockSum_of_clockFree {tr : List TraceOp} (h : clockFree tr = true) : clockSum tr = 0 := by
  induction tr with
  | nil => simp [clockSum]
  | cons op tr ih =>
    cases op with
    | clock run => simp [clockFree] at h
    | write c a v =>
      simp [clockFree] at h
      simp [clockSum, ih h]

lemma apply_zero_loop_clockFree (q : List TimedEvent) (c : ℕ) :
    clockFree (apply_zero_loop q c).2.2.1 = true := by
  induction q generalizing c with
  | nil => simp [apply_zero_loop, clockFree]
  | cons ev rest ih =>
    by_cases h : ev.delta = 0
    · simp [apply_zero_loop, h, clockFree_append, applyEventTrace_clockFree, ih]
    · simp [apply_zero_loop, h, clockFree]

lemma apply_zero_loop_length (q : List TimedEvent) (c : ℕ) :
    (apply_zero_loop q c).1.length ≤ q.length := by
  induction q generalizing c with
  | nil => simp [apply_zero_loop]
  | cons ev rest ih =>
    by_cases h : ev.delta = 0
    · simp only [apply_zero_loop, h, if_pos]
      exact le_trans (ih (headDelta rest)) (Nat.le_succ _)
    · simp [apply_zero_loop, h]

lemma apply_zero_delta_events_clockFree (s : EngineState) :
    clockFree (apply_zero_delta_events s).2.1 = true := by
  simp [apply_zero_delta_events, apply_zero_loop_clockFree]

lemma apply_zero_delta_events_length (s : EngineState) :
    (apply_zero_delta_events s).1.queue.length ≤ s.queue.length := by
  simp [apply_zero_delta_events, apply_zero_loop_length]

/-! ### Render loop lemmas -/

lemma render_loop_zero (fuel : ℕ) (s : EngineState) : render_loop fuel 0 s = (s, [], []) := by
  cases fuel <;> simp [render_loop]

lemma runOf_le (remaining : ℕ) (s : EngineState) :
    runOf remaining s ≤ remaining := by
  unfold runOf
  split_ifs with h
  · exact le_of_lt h.2.2
  · exact le_rfl

/-- With enough fuel the render loop clocks the cells by exactly
`cycles_remaining` cycles in total. -/
lemma render_loop_clockSum :
    ∀ (fuel remaining : ℕ) (s : EngineState), remaining + s.queue.length < fuel →
      clockSum (render_loop fuel remaining s).2.1 = remaining := by
  intro fuel
  induction fuel with
  | zero => intro r s h; omega
  | succ fuel ih =>
    intro r s h
    by_cases hr : r = 0
    · subst hr; simp [render_loop, clockSum]
    · rw [render_loop]
      simp only [if_neg hr]
      by_cases hg : s.queue ≠ [] ∧ s.cyclesToNext ≠ UINT32_MAX
      · rw [if_pos hg]
        by_cases hlt : runOf r s < s.cyclesToNext
        · rw [if_pos hlt]
          have hrun : runOf r s = r := by
            unfold runOf at hlt ⊢
            split_ifs at hlt ⊢ with hc
            · omega
            · rfl
          simp only [clockSum, hrun, Nat.sub_self, render_loop_zero]
          simp [clockSum]
        · rw [if_neg hlt]
          -- pop branch: the queue is non-empty, so the pop succeeds and the
          -- queue shrinks by at least one.
          obtain ⟨ev, rest, hq⟩ := List.exists_cons_of_ne_nil hg.1
          have hrunle : runOf r s ≤ r := runOf_le r s
          set run := runOf r s with hrun
          set s0 : EngineState := { s with cyclesToNext := s.cyclesToNext - run } with hs0
          have hpop : pop_event s0 =
              (some ev, { s0 with queue := rest, cyclesToNext := headDelta rest }) := by
            simp [pop_event, hs0, hq]
          simp only [hpop]
          set s1 : EngineState := { s0 with queue := rest, cyclesToNext := headDelta rest }
          have hlen1 : (apply_zero_delta_events s1).1.queue.length ≤ rest.length :=
            apply_zero_delta_events_length s1
          have hrec : clockSum (render_loop fuel (r - run) (apply_zero_delta_events s1).1).2.1
              = r - run := by
            apply ih
            have : s.queue.length = rest.length + 1 := by rw [hq]; simp
            omega
          simp only [clockSum, clockSum_append, hrec,
            clockSum_of_clockFree (applyEventTrace_clockFree ev),
            clockSum_of_clockFree (apply_zero_delta_events_clockFree s1)]
          omega
      · rw [if_neg hg]
        have hrun : runOf r s = r := by
          unfold runOf
          rw [if_neg]
          intro hc
          exact hg ⟨hc.1, hc.2.1⟩
        simp only [clockSum, hrun, Nat.sub_self, render_loop_zero]
        simp [clockSum]

lemma apply_zero_delta_events_residual (s : EngineState) :
    (apply_zero_delta_events s).1.cycleResidual = s.cycleResidual := by
  simp [apply_zero_delta_events]

lemma render_loop_residual :
    ∀ (fuel remaining : ℕ) (s : EngineState),
      (render_loop fuel remaining s).1.cycleResidual = s.cycleResidual := by
  intro fuel
  induction fuel with
  | zero => intro r s; simp [render_loop]
  | succ fuel ih =>
    intro r s
    by_cases hr : r = 0
    · subst hr; simp [render_loop]
    · rw [render_loop]
      simp only [if_neg hr]
      by_cases hg : s.queue ≠ [] ∧ s.cyclesToNext ≠ UINT32_MAX
      · rw [if_pos hg]
        by_cases hlt : runOf r s < s.cyclesToNext
        · rw [if_pos hlt]; simp [ih]
        · rw [if_neg hlt]
          obtain ⟨ev, rest, hq⟩ := List.exists_cons_of_ne_nil hg.1
          have hpop : pop_event { s with cyclesToNext := s.cyclesToNext - runOf r s } =
              (some ev, { s with queue := rest, cyclesToNext := headDelta rest }) := by
            simp [pop_event, hq]
          simp only [hpop, ih]
          rw [apply_zero_delta_events_residual]
      · rw [if_neg hg]; simp [ih]

/-- **C2.** On an engine whose `cycles_per_sample` comes from a positive
sample rate, every `sid_engine_render_frame` call with valid output pointers
clocks the SID cells by at least one cycle in total, and the
`cycle_residual` accumulator stays in `[0, 1)` across calls. -/
theorem C2_forward_progress (rate : ℕ) (s : EngineState) (out0 out1 : ℤ)
    (hrate : 0 < rate)
    (hcps : s.cyclesPerSample = kC64ClockHz / (rate : ℚ))
    (h0 : 0 ≤ s.cycleResidual) (h1 : s.cycleResidual < 1) :
    1 ≤ clockSum (sid_engine_render_frame out0 out1 false false s).2.2.2.1 ∧
    0 ≤ (sid_engine_render_frame out0 out1 false false s).1.cycleResidual ∧
    (sid_engine_render_frame out0 out1 false false s).1.cycleResidual < 1 := by
  have hcpspos : 0 < s.cyclesPerSample := by
    rw [hcps]
    apply div_pos
    · norm_num [kC64ClockHz]
    · exact_mod_cast hrate
  set residual1 := s.cycleResidual + s.cyclesPerSample with hres1
  have hres1pos : 0 < residual1 := by positivity
  have htrunc : cTrunc residual1 = ⌊residual1⌋ := by
    unfold cTrunc
    rw [if_pos (le_of_lt hres1pos)]
  have hfloor0 : 0 ≤ ⌊residual1⌋ := Int.floor_nonneg.mpr (le_of_lt hres1pos)
  -- the state after the residual bookkeeping
  have key : ∀ (cycles : ℤ) (residual3 : ℚ), 1 ≤ cycles → 0 ≤ residual3 → residual3 < 1 →
      ∀ s1 : EngineState, s1 = { s with cycleResidual := residual3 } →
      1 ≤ clockSum ((apply_zero_delta_events s1).2.1 ++
          (render_loop (cycles.toNat + (apply_zero_delta_events s1).1.queue.length + 1)
            cycles.toNat (apply_zero_delta_events s1).1).2.1) ∧
      0 ≤ (render_loop (cycles.toNat + (apply_zero_delta_events s1).1.queue.length + 1)
            cycles.toNat (apply_zero_delta_events s1).1).1.cycleResidual ∧
      (render_loop (cycles.toNat + (apply_zero_delta_events s1).1.queue.length + 1)
            cycles.toNat (apply_zero_delta_events s1).1).1.cycleResidual < 1 := by
    intro cycles residual3 hcy hr0 hr1 s1 hs1
    have hsum : clockSum ((render_loop (cycles.toNat + (apply_zero_delta_events s1).1.queue.length + 1)
        cycles.toNat (apply_zero_delta_events s1).1).2.1) = cycles.toNat :=
      render_loop_clockSum _ _ _ (by omega)
    have hres : (render_loop (cycles.toNat + (apply_zero_delta_events s1).1.queue.length + 1)
        cycles.toNat (apply_zero_delta_events s1).1).1.cycleResidual = residual3 := by
      rw [render_loop_residual, apply_zero_delta_events_residual, hs1]
    refine ⟨?_, by rw [hres]; exact hr0, by rw [hres]; exact hr1⟩
    rw [clockSum_append, clockSum_of_clockFree (apply_zero_delta_events_clockFree s1), hsum]
    omega
  by_cases hc : cTrunc residual1 < 1
  · have := key 1 0 le_rfl le_rfl one_pos _ rfl
    simpa [sid_engine_render_frame, ← hres1, hc] using this
  · have hcy : 1 ≤ cTrunc residual1 := not_lt.mp hc
    have hfr0 : 0 ≤ residual1 - (⌊residual1⌋ : ℚ) := by
      have := Int.fract_nonneg residual1
      rwa [Int.fract] at this
    have hfr1 : residual1 - (⌊residual1⌋ : ℚ) < 1 := by
      have := Int.fract_lt_one residual1
      rwa [Int.fract] at this
    have := key (cTrunc residual1) (residual1 - ((cTrunc residual1 : ℤ) : ℚ))
      hcy (by rw [htrunc]; exact hfr0) (by rw [htrunc]; exact hfr1) _ rfl
    simpa [sid_engine_render_frame, ← hres1, hc] using this

/-- Witness for C2: one render call on the freshly initialised engine at
44100 Hz clocks the cells and keeps the residual in `[0, 1)`. -/
theorem C2_forward_progress_witness :
    1 ≤ clockSum (sid_engine_render_frame 0 0 false false (initState 44100)).2.2.2.1 ∧
    0 ≤ (sid_engine_render_frame 0 0 false false (initState 44100)).1.cycleResidual ∧
    (sid_engine_render_frame 0 0 false false (initState 44100)).1.cycleResidual < 1 :=
  C2_forward_progress 44100 (initState 44100) 0 0 (by norm_num)
    (by norm_num [initState]) (by norm_num [initState]) (by norm_num [initState])

/-- **C5.** `apply_event` mask semantics: a `chip_mask` of 0 (mod 4) writes
both cells, `0b01` only cell 0, `0b10` only cell 1, `0b11` both cells; bits
of `chip_mask` above bit 1 are ignored; and the `addr` field is masked to 5
bits (`addr & 0x1F`, i.e. `addr % 32`) before the cell write. -/
theorem C5_chip_mask_semantics (chip addr value delta : ℕ) :
    (applyEventTrace ⟨chip, addr, value, delta⟩ =
      if chip &&& 3 = 0 ∨ chip &&& 3 = 3 then
        [TraceOp.write 0 (addr % 32) value, TraceOp.write 1 (addr % 32) value]
      else if chip &&& 3 = 1 then [TraceOp.write 0 (addr % 32) value]
      else [TraceOp.write 1 (addr % 32) value]) ∧
    applyEventTrace ⟨chip &&& 3, addr, value, delta⟩ =
      applyEventTrace ⟨chip, addr, value, delta⟩ := by
  have hm : chip &&& 3 = chip % 4 := Nat.and_pow_two_sub_one_eq_mod chip 2
  have hmm : (chip &&& 3) &&& 3 = chip &&& 3 := by
    rw [hm, Nat.and_pow_two_sub_one_eq_mod (chip % 4) 2]
    omega
  have ha : addr &&& 0x1f = addr % 32 := Nat.and_pow_two_sub_one_eq_mod addr 5
  have h4 : chip % 4 = 0 ∨ chip % 4 = 1 ∨ chip % 4 = 2 ∨ chip % 4 = 3 := by omega
  constructor
  · rcases h4 with h | h | h | h <;>
      simp [applyEventTrace, hm, h, ha]
  · simp only [applyEventTrace, hmm]

/-- **C6.** Zero-delta eagerness: when two events with `delta = 0` stand at
the head of the queue, a single `sid_engine_render_frame` call applies both,
in insertion order, before any clocking: the call's trace begins with the
register writes of the first event immediately followed by those of the
second, with no `clock` operation before or between them, and the list of
applied events begins `e1, e2`. -/
theorem C6_zero_delta_pair_applied_together (s : EngineState) (out0 out1 : ℤ)
    (e1 e2 : TimedEvent) (rest : List TimedEvent)
    (hq : s.queue = e1 :: e2 :: rest) (h1 : e1.delta = 0) (h2 : e2.delta = 0) :
    (∃ tr', (sid_engine_render_frame out0 out1 false false s).2.2.2.1 =
        applyEventTrace e1 ++ (applyEventTrace e2 ++ tr')) ∧
    clockFree (applyEventTrace e1 ++ applyEventTrace e2) = true ∧
    (∃ dv', (sid_engine_render_frame out0 out1 false false s).2.2.2.2 = e1 :: e2 :: dv') := by
  have hloop : ∀ c : ℕ, apply_zero_loop (e1 :: e2 :: rest) c =
      ((apply_zero_loop rest (headDelta rest)).1,
       (apply_zero_loop rest (headDelta rest)).2.1,
       applyEventTrace e1 ++ (applyEventTrace e2 ++ (apply_zero_loop rest (headDelta rest)).2.2.1),
       e1 :: e2 :: (apply_zero_loop rest (headDelta rest)).2.2.2) := by
    intro c
    simp [apply_zero_loop, h1, h2, headDelta]
  refine ⟨?_, ?_, ?_⟩
  · simp only [sid_engine_render_frame, apply_zero_delta_events, hq, hloop]
    norm_num [List.append_assoc]
  · rw [clockFree_append, applyEventTrace_clockFree, applyEventTrace_clockFree]
    rfl
  · simp only [sid_engine_render_frame, apply_zero_delta_events, hq, hloop]
    norm_num [List.append_assoc]

/-- Witness for C6: two zero-delta events at the head of a two-element
queue are applied back-to-back by one render call. -/
theorem C6_zero_delta_pair_applied_together_witness :
    (∃ tr', (sid_engine_render_frame 0 0 false false
        ⟨[⟨1, 5, 7, 0⟩, ⟨2, 6, 8, 0⟩], 0, 0, 10, 0⟩).2.2.2.1 =
        applyEventTrace ⟨1, 5, 7, 0⟩ ++ (applyEventTrace ⟨2, 6, 8, 0⟩ ++ tr')) ∧
    clockFree (applyEventTrace ⟨1, 5, 7, 0⟩ ++ applyEventTrace ⟨2, 6, 8, 0⟩) = true ∧
    (∃ dv', (sid_engine_render_frame 0 0 false false
        ⟨[⟨1, 5, 7, 0⟩, ⟨2, 6, 8, 0⟩], 0, 0, 10, 0⟩).2.2.2.2 =
        (⟨1, 5, 7, 0⟩ : TimedEvent) :: (⟨2, 6, 8, 0⟩ : TimedEvent) :: dv') :=
  C6_zero_delta_pair_applied_together _ 0 0 _ _ [] rfl rfl rfl

/-! ### Stuck-sentinel lemmas (for C9) -/

lemma UINT32_MAX_ne_zero : UINT32_MAX ≠ 0 := by decide

lemma apply_zero_delta_events_noop_nil (s : EngineState) (h : s.queue = []) :
    apply_zero_delta_events s = (s, [], []) := by
  obtain ⟨q, ctn, dc, cps, cr⟩ := s
  simp only at h
  subst h
  simp [apply_zero_delta_events, apply_zero_loop]

lemma apply_zero_delta_events_noop_head (s : EngineState) (ev : TimedEvent)
    (rest : List TimedEvent) (h : s.queue = ev :: rest) (hd : ev.delta ≠ 0) :
    apply_zero_delta_events s = (s, [], []) := by
  obtain ⟨q, ctn, dc, cps, cr⟩ := s
  simp only at h
  subst h
  simp [apply_zero_delta_events, apply_zero_loop, hd]

/-- When `g_cycles_to_next_event` holds the empty-queue sentinel, the render
loop clocks but never pops: the state is returned unchanged and no event is
applied, regardless of how many cycles are rendered. -/
lemma render_loop_stuck (fuel remaining : ℕ) (s : EngineState)
    (h : s.cyclesToNext = UINT32_MAX) :
    (render_loop fuel remaining s).1 = s ∧ (render_loop fuel remaining s).2.2 = [] := by
  match fuel with
  | 0 => simp [render_loop]
  | fuel + 1 =>
    by_cases hr : remaining = 0
    · simp [render_loop, hr]
    · rw [render_loop]
      simp only [if_neg hr]
      have hg : ¬(s.queue ≠ [] ∧ s.cyclesToNext ≠ UINT32_MAX) := by simp [h]
      rw [if_neg hg]
      have hrun : runOf remaining s = remaining := by
        unfold runOf
        rw [if_neg]
        simp [h]
      simp [hrun, render_loop_zero]

/-- A render call on a stuck state (sentinel in `cycles_to_next`, head delta
non-zero) changes only the cycle residual: the queue and the sentinel
survive and no event is applied. -/
lemma render_frame_stuck (s : EngineState) (ev : TimedEvent) (tail : List TimedEvent)
    (hq : s.queue = ev :: tail) (hctn : s.cyclesToNext = UINT32_MAX) (hd : ev.delta ≠ 0) :
    (sid_engine_render_frame 0 0 false false s).1.queue = s.queue ∧
    (sid_engine_render_frame 0 0 false false s).1.cyclesToNext = UINT32_MAX ∧
    (sid_engine_render_frame 0 0 false false s).2.2.2.2 = [] := by
  have hnoop : ∀ res3 : ℚ, apply_zero_delta_events { s with cycleResidual := res3 } =
      ({ s with cycleResidual := res3 }, [], []) := by
    intro res3
    exact apply_zero_delta_events_noop_head _ ev tail (by simp [hq]) hd
  have hstuck : ∀ (fuel rem : ℕ) (res3 : ℚ),
      (render_loop fuel rem { s with cycleResidual := res3 }).1 =
        { s with cycleResidual := res3 } ∧
      (render_loop fuel rem { s with cycleResidual := res3 }).2.2 = [] := by
    intro fuel rem res3
    exact render_loop_stuck fuel rem _ (by simp [hctn])
  simp only [sid_engine_render_frame]
  norm_num [hnoop]
  rw [(hstuck _ _ _).1, (hstuck _ _ _).2]
  simp [hq, hctn]

/-- Pushing an event onto a non-full queue whose `cycles_to_next` holds the
sentinel and whose head has a non-zero delta: the event is appended, the
sentinel is re-read from the (unchanged) head, and nothing is applied. -/
lemma queue_event_stuck (s : EngineState) (ev : TimedEvent) (tail : List TimedEvent)
    (c a v d : ℕ) (hq : s.queue = ev :: tail) (hctn : s.cyclesToNext = UINT32_MAX)
    (hd : ev.delta = UINT32_MAX) (hnf : s.queue.length + 1 ≠ kEventQueueSize) :
    sid_engine_queue_event s c a v d =
      ({ s with queue := ev :: (tail ++ [⟨c, a, v, d⟩]), cyclesToNext := UINT32_MAX },
       [], []) := by
  rw [sid_engine_queue_event]
  simp only [if_neg hnf]
  have hq2 : s.queue ++ [(⟨c, a, v, d⟩ : TimedEvent)] = ev :: (tail ++ [⟨c, a, v, d⟩]) := by
    simp [hq]
  rw [if_pos (by simpa using hctn)]
  rw [apply_zero_delta_events_noop_head _ ev (tail ++ [⟨c, a, v, d⟩]) (by simp [hq2])
    (by rw [hd]; exact UINT32_MAX_ne_zero)]
  simp [hq2, headDelta, hd]

/-- The events a run of operations applies, and the final queue/sentinel,
when the queue head is an event with `delta = UINT32_MAX`: nothing is ever
applied and pushes pile up behind the stuck head. -/
lemma runOps_stuck :
    ∀ (ops : List EngineOp) (s : EngineState) (ev : TimedEvent) (tail : List TimedEvent),
      s.cyclesToNext = UINT32_MAX → s.queue = ev :: tail → ev.delta = UINT32_MAX →
      s.queue.length + (pushedEvents ops).length ≤ kEventQueueSize - 1 →
      (runOps s ops).1.queue = ev :: (tail ++ pushedEvents ops) ∧
      (runOps s ops).1.cyclesToNext = UINT32_MAX ∧
      (runOps s ops).2 = [] := by
  intro ops
  induction ops with
  | nil =>
    intro s ev tail hctn hq hd _
    simp [runOps, hq, hctn, pushedEvents]
  | cons op ops ih =>
    intro s ev tail hctn hq hd hlen
    cases op with
    | push c a v d =>
      have hlen' : s.queue.length + (pushedEvents ops).length + 1 ≤ kEventQueueSize - 1 := by
        simp only [pushedEvents, List.length_cons] at hlen
        omega
      have hnf : s.queue.length + 1 ≠ kEventQueueSize := by
        have : 2 ≤ kEventQueueSize := by norm_num [kEventQueueSize]
        omega
      have hpush := queue_event_stuck s ev tail c a v d hq hctn hd hnf
      have hih := ih { s with
          queue := ev :: (tail ++ [⟨c, a, v, d⟩]),
          cyclesToNext := UINT32_MAX } ev (tail ++ [⟨c, a, v, d⟩]) rfl rfl hd ?hb
      case hb =>
        simp only [List.length_cons, List.length_append, List.length_nil]
        simp only [hq, List.length_cons] at hlen'
        omega
      simp only [runOps, hpush]
      refine ⟨?_, hih.2.1, by simp [hih.2.2]⟩
      rw [hih.1]
      simp [pushedEvents]
    | render =>
      have hrf := render_frame_stuck s ev tail hq hctn (by rw [hd]; exact UINT32_MAX_ne_zero)
      have hih := ih (sid_engine_render_frame 0 0 false false s).1 ev tail
        hrf.2.1 (by rw [hrf.1, hq]) hd ?hc
      case hc =>
        rw [hrf.1]
        simp only [pushedEvents, List.length_cons] at hlen
        omega
      simp only [runOps]
      refine ⟨?_, hih.2.1, by simp [hrf.2.2, hih.2.2]⟩
      rw [hih.1]
      simp [pushedEvents]

/-- **C9.** If an event is queued with `delta_cycles = UINT32_MAX` (into an
idle queue whose `cycles_to_next` holds the empty-queue sentinel), the
render loop treats `cycles_to_next == UINT32_MAX` as the empty-queue
infinity even though the queue is non-empty: that event is never applied by
any number of subsequent `sid_engine_render_frame` calls, no event queued
behind it (by drop-free pushes) is applied either, and the sentinel never
leaves `cycles_to_next`. -/
theorem C9_uint32max_delta_freezes_queue (s : EngineState) (c a v : ℕ)
    (ops : List EngineOp) (s1 : EngineState)
    (hq : s.queue = []) (hctn : s.cyclesToNext = UINT32_MAX)
    (hops : (pushedEvents ops).length ≤ kEventQueueSize - 2)
    (hs1 : s1 = (sid_engine_queue_event s c a v UINT32_MAX).1) :
    (sid_engine_queue_event s c a v UINT32_MAX).2.2 = [] ∧
    (runOps s1 ops).1.queue = (⟨c, a, v, UINT32_MAX⟩ : TimedEvent) :: pushedEvents ops ∧
    (runOps s1 ops).1.cyclesToNext = UINT32_MAX ∧
    (runOps s1 ops).2 = [] := by
  have hnf : s.queue.length + 1 ≠ kEventQueueSize := by
    rw [hq]
    norm_num [kEventQueueSize]
  have hpush : sid_engine_queue_event s c a v UINT32_MAX =
      ({ s with queue := [⟨c, a, v, UINT32_MAX⟩], cyclesToNext := UINT32_MAX }, [], []) := by
    rw [sid_engine_queue_event]
    simp only [if_neg hnf]
    rw [if_pos (by simpa using hctn)]
    rw [apply_zero_delta_events_noop_head _ ⟨c, a, v, UINT32_MAX⟩ [] (by simp [hq])
      UINT32_MAX_ne_zero]
    simp [hq, headDelta]
  have hrun := runOps_stuck ops { s with
      queue := [⟨c, a, v, UINT32_MAX⟩],
      cyclesToNext := UINT32_MAX } ⟨c, a, v, UINT32_MAX⟩ [] rfl rfl rfl (by
    simp only [List.length_cons, List.length_nil]
    have : 2 ≤ kEventQueueSize := by norm_num [kEventQueueSize]
    omega)
  rw [hs1, hpush]
  exact ⟨rfl, hrun.1, hrun.2.1, hrun.2.2⟩

/-- Witness for C9: a `UINT32_MAX`-delta event pushed into the idle engine
is still at the head — and nothing has been applied — after another push
and two render calls. -/
theorem C9_uint32max_delta_freezes_queue_witness :
    (sid_engine_queue_event (initState 44100) 1 2 3 UINT32_MAX).2.2 = [] ∧
    (runOps (sid_engine_queue_event (initState 44100) 1 2 3 UINT32_MAX).1
        [EngineOp.push 4 5 6 7, EngineOp.render, EngineOp.render]).1.queue =
      (⟨1, 2, 3, UINT32_MAX⟩ : TimedEvent) ::
        pushedEvents [EngineOp.push 4 5 6 7, EngineOp.render, EngineOp.render] ∧
    (runOps (sid_engine_queue_event (initState 44100) 1 2 3 UINT32_MAX).1
        [EngineOp.push 4 5 6 7, EngineOp.render, EngineOp.render]).1.cyclesToNext =
      UINT32_MAX ∧
    (runOps (sid_engine_queue_event (initState 44100) 1 2 3 UINT32_MAX).1
        [EngineOp.push 4 5 6 7, EngineOp.render, EngineOp.render]).2 = [] :=
  C9_uint32max_delta_freezes_queue (initState 44100) 1 2 3
    [EngineOp.push 4 5 6 7, EngineOp.render, EngineOp.render] _
    rfl rfl (by norm_num [pushedEvents, kEventQueueSize]) rfl

/-! ### Handshake lemmas (for C8) -/

lemma readyCount_nil : readyCount [] = 0 := rfl

lemma linkRun_streaming_polls :
    ∀ evs : List HostEvent, (∀ e ∈ evs, e = HostEvent.poll) →
      readyCount (linkRun LinkState.streaming evs).2 = 0 := by
  intro evs
  induction evs with
  | nil => intro _; rfl
  | cons e rest ih =>
    intro h
    have he : e = HostEvent.poll := h e (by simp)
    subst he
    have hrest : ∀ x ∈ rest, x = HostEvent.poll := fun x hx => h x (by simp [hx])
    simpa [linkRun, linkStep, readyCount, readyLine] using ih hrest

/-- **C8.** On a new host session — an attach followed by any positive
number of device main-loop passes with no further attach/detach — the
device transmits the handshake line `"[DUMP] READY\r\n"`
(bytes `5B 44 55 4D 50 5D 20 52 45 41 44 59 0D 0A`) exactly once, and never
a second time within the same session. -/
theorem C8_handshake_exactly_once (evs : List HostEvent)
    (hpoll : ∀ e ∈ evs, e = HostEvent.poll) (hne : evs ≠ []) :
    readyCount (linkRun LinkState.disconnected (HostEvent.attach :: evs)).2 = 1 := by
  obtain ⟨e, rest, rfl⟩ := List.exists_cons_of_ne_nil hne
  have he : e = HostEvent.poll := hpoll e (by simp)
  subst he
  have hrest : ∀ x ∈ rest, x = HostEvent.poll := fun x hx => hpoll x (by simp [hx])
  simpa [linkRun, linkStep, readyCount, readyLine] using linkRun_streaming_polls rest hrest

/-- Witness for C8: one session with three main-loop passes emits the
handshake line exactly once. -/
theorem C8_handshake_exactly_once_witness :
    readyCount (linkRun LinkState.disconnected
      [HostEvent.attach, HostEvent.poll, HostEvent.poll, HostEvent.poll]).2 = 1 :=
  C8_handshake_exactly_once [HostEvent.poll, HostEvent.poll, HostEvent.poll]
    (by intro e he; simp at he; simp [he]) (by simp)

/-! ### Frame parser lemmas (for C3, C4, C7) -/

lemma byteAt_cons_zero (a : ℕ) (l : List ℕ) : byteAt (a :: l) 0 = a := rfl

lemma byteAt_cons_succ (a : ℕ) (l : List ℕ) (n : ℕ) : byteAt (a :: l) (n + 1) = byteAt l n := rfl

lemma drop_cons_succ (a : ℕ) (l : List ℕ) (n : ℕ) : (a :: l).drop (n + 1) = l.drop n := rfl

lemma le32_toLE4 (n : ℕ) (h : n < 2 ^ 32) :
    le32 (n % 256) (n / 256 % 256) (n / 65536 % 256) (n / 16777216 % 256) = n := by
  unfold le32
  omega

lemma encodeEvents_length (es : List (ℕ × ℕ × ℕ × ℕ)) :
    (encodeEvents es).length = 8 * es.length := by
  induction es with
  | nil => rfl
  | cons e es ih =>
    obtain ⟨c, a, v, d⟩ := e
    simp [encodeEvents, encodeEvent, toLE4, ih]
    omega

lemma encodeFrame_length (frame : ℕ) (es : List (ℕ × ℕ × ℕ × ℕ)) :
    (encodeFrame frame es).length = 12 + 8 * es.length := by
  simp [encodeFrame, encodeHeader, toLE4, encodeEvents_length]
  omega

/-- An empty buffer: the parser (in scan state) consumes nothing. -/
lemma processStream_nil (fuel : ℕ) (ps : ParserState) (hh : ps.haveHeader = false) :
    processStream fuel ps [] = (ps, [], [], []) := by
  cases fuel with
  | zero => rfl
  | succ fuel =>
    rw [processStream, if_pos hh, if_pos (by simp)]

/-- One-byte resync: with at least 12 buffered bytes, a wrong magic or an
oversized count makes the parser advance its scan position by exactly one
byte. -/
lemma processStream_reject_step (fuel : ℕ) (ps : ParserState) (bs : List ℕ)
    (hh : ps.haveHeader = false) (h12 : 12 ≤ bs.length)
    (hrej : le32 (byteAt bs 0) (byteAt bs 1) (byteAt bs 2) (byteAt bs 3) ≠ SID_MAGIC ∨
      8192 < le32 (byteAt bs 4) (byteAt bs 5) (byteAt bs 6) (byteAt bs 7)) :
    processStream (fuel + 1) ps bs = processStream fuel ps bs.tail := by
  rw [processStream, if_pos hh, if_neg (by omega)]
  rcases hrej with hmag | hcnt
  · rw [if_pos hmag]
  · by_cases hmag : le32 (byteAt bs 0) (byteAt bs 1) (byteAt bs 2) (byteAt bs 3) ≠ SID_MAGIC
    · rw [if_pos hmag]
    · rw [if_neg hmag, if_pos hcnt]

/-- Accepting a 12-byte header with valid magic and an in-range count. -/
lemma processStream_header_step (fuel : ℕ) (ps : ParserState) (rest : List ℕ)
    (count frame : ℕ) (hh : ps.haveHeader = false) (hc : count ≤ 8192) (hf : frame < 2 ^ 32) :
    processStream (fuel + 1) ps (encodeHeader count frame ++ rest) =
      processStream fuel ⟨true, ⟨SID_MAGIC, count, frame⟩, count⟩ rest := by
  have hbs : encodeHeader count frame ++ rest =
      0x46 :: 0x44 :: 0x49 :: 0x53 ::
      (count % 256) :: (count / 256 % 256) :: (count / 65536 % 256) :: (count / 16777216 % 256) ::
      (frame % 256) :: (frame / 256 % 256) :: (frame / 65536 % 256) :: (frame / 16777216 % 256) ::
      rest := by
    norm_num [encodeHeader, toLE4, SID_MAGIC]
  have hcnt := le32_toLE4 count (lt_of_le_of_lt hc (by norm_num))
  have hfr := le32_toLE4 frame hf
  rw [processStream, hbs, if_pos hh, if_neg (by simp)]
  simp only [byteAt_cons_zero, byteAt_cons_succ, hcnt, hfr]
  rw [if_neg (by norm_num [le32, SID_MAGIC]), if_neg (by omega)]
  norm_num [le32, SID_MAGIC, drop_cons_succ]

/-- Consuming one 8-byte event record. -/
lemma processStream_event_step (fuel : ℕ) (ps : ParserState) (rest : List ℕ)
    (c a v d : ℕ) (hh : ps.haveHeader = true) (her : ps.eventsRemaining ≠ 0)
    (hd : d < 2 ^ 32) :
    processStream (fuel + 1) ps (encodeEvent c a v d ++ rest) =
      (if ps.eventsRemaining - 1 = 0 then
        ((processStream fuel ⟨false, ps.header, 0⟩ rest).1,
         (processStream fuel ⟨false, ps.header, 0⟩ rest).2.1,
         (c, a, v, d) :: (processStream fuel ⟨false, ps.header, 0⟩ rest).2.2.1,
         ps.header.frame :: (processStream fuel ⟨false, ps.header, 0⟩ rest).2.2.2)
       else
        ((processStream fuel ⟨true, ps.header, ps.eventsRemaining - 1⟩ rest).1,
         (processStream fuel ⟨true, ps.header, ps.eventsRemaining - 1⟩ rest).2.1,
         (c, a, v, d) :: (processStream fuel ⟨true, ps.header,
           ps.eventsRemaining - 1⟩ rest).2.2.1,
         (processStream fuel ⟨true, ps.header, ps.eventsRemaining - 1⟩ rest).2.2.2)) := by
  have hbs : encodeEvent c a v d ++ rest =
      c :: a :: v :: 0 ::
      (d % 256) :: (d / 256 % 256) :: (d / 65536 % 256) :: (d / 16777216 % 256) :: rest := by
    norm_num [encodeEvent, toLE4]
  have hdlt := le32_toLE4 d hd
  rw [processStream, hbs, if_neg (by simp [hh]), if_neg her, if_neg (by simp)]
  simp only [byteAt_cons_zero, byteAt_cons_succ, hdlt]
  norm_num [drop_cons_succ]

/-- Consuming the whole event payload of a frame (the completion is folded
into the last event, as in the source). -/
lemma processStream_events :
    ∀ (evs : List (ℕ × ℕ × ℕ × ℕ)) (fuel : ℕ) (ps : ParserState) (bs : List ℕ),
      ps.haveHeader = true → ps.eventsRemaining = evs.length → evs ≠ [] →
      (∀ e ∈ evs, validWireEvent e) →
      processStream (evs.length + fuel) ps (encodeEvents evs ++ bs) =
        ((processStream fuel ⟨false, ps.header, 0⟩ bs).1,
         (processStream fuel ⟨false, ps.header, 0⟩ bs).2.1,
         evs ++ (processStream fuel ⟨false, ps.header, 0⟩ bs).2.2.1,
         ps.header.frame :: (processStream fuel ⟨false, ps.header, 0⟩ bs).2.2.2) := by
  intro evs
  induction evs with
  | nil => intro _ _ _ _ _ h; exact absurd rfl h
  | cons e evs ih =>
    intro fuel ps bs hh her _ hval
    obtain ⟨c, a, v, d⟩ := e
    have hvd : d < 2 ^ 32 := (hval (c, a, v, d) (by simp)).2.2.2
    have harr : encodeEvents ((c, a, v, d) :: evs) ++ bs =
        encodeEvent c a v d ++ (encodeEvents evs ++ bs) := by
      simp [encodeEvents]
    have hlen : ((c, a, v, d) :: evs).length + fuel = (evs.length + fuel) + 1 := by
      simp only [List.length_cons]
      omega
    rw [hlen, harr, processStream_event_step (evs.length + fuel) ps (encodeEvents evs ++ bs)
      c a v d hh (by simp [her]) hvd]
    have her1 : ps.eventsRemaining - 1 = evs.length := by simp [her]
    rw [her1]
    by_cases hevs : evs = []
    · subst hevs
      simp [encodeEvents]
    · rw [if_neg (by simpa using fun h => hevs (List.eq_nil_of_length_eq_zero h))]
      rw [ih fuel ⟨true, ps.header, evs.length⟩ bs rfl rfl hevs
        (fun x hx => hval x (by simp [hx]))]
      simp

/-- Parsing one full 12-byte-header frame at the front of the buffer. -/
lemma processStream_frame (fuel : ℕ) (ps : ParserState) (frame : ℕ)
    (evs : List (ℕ × ℕ × ℕ × ℕ)) (bs : List ℕ)
    (hh : ps.haveHeader = false) (hne : evs ≠ []) (hcnt : evs.length ≤ 8192)
    (hf : frame < 2 ^ 32) (hval : ∀ e ∈ evs, validWireEvent e) :
    processStream ((1 + evs.length) + fuel) ps (encodeFrame frame evs ++ bs) =
      ((processStream fuel ⟨false, ⟨SID_MAGIC, evs.length, frame⟩, 0⟩ bs).1,
       (processStream fuel ⟨false, ⟨SID_MAGIC, evs.length, frame⟩, 0⟩ bs).2.1,
       evs ++ (processStream fuel ⟨false, ⟨SID_MAGIC, evs.length, frame⟩, 0⟩ bs).2.2.1,
       frame :: (processStream fuel ⟨false, ⟨SID_MAGIC, evs.length, frame⟩, 0⟩ bs).2.2.2) := by
  have hsplit : encodeFrame frame evs ++ bs =
      encodeHeader evs.length frame ++ (encodeEvents evs ++ bs) := by
    simp [encodeFrame]
  have h1 : (1 + evs.length) + fuel = (evs.length + fuel) + 1 := by omega
  rw [hsplit, h1,
    processStream_header_step (evs.length + fuel) ps _ evs.length frame hh hcnt hf,
    processStream_events evs fuel ⟨true, ⟨SID_MAGIC, evs.length, frame⟩, evs.length⟩ bs
      rfl rfl hne hval]

/-- Parsing a buffer that holds exactly one 12-byte-header frame. -/
lemma processStream_frame_only (fuel : ℕ) (ps : ParserState) (frame : ℕ)
    (evs : List (ℕ × ℕ × ℕ × ℕ))
    (hh : ps.haveHeader = false) (hne : evs ≠ []) (hcnt : evs.length ≤ 8192)
    (hf : frame < 2 ^ 32) (hval : ∀ e ∈ evs, validWireEvent e) :
    processStream ((1 + evs.length) + fuel) ps (encodeFrame frame evs) =
      (⟨false, ⟨SID_MAGIC, evs.length, frame⟩, 0⟩, [], evs, [frame]) := by
  rw [← List.append_nil (encodeFrame frame evs),
    processStream_frame fuel ps frame evs [] hh hne hcnt hf hval,
    processStream_nil fuel _ rfl]
  simp

/-- Sliding over garbage: bytes that are not `0x46` (the first magic byte)
are skipped one at a time without any delivery. -/
lemma processStream_noise :
    ∀ (noise : List ℕ) (fuel : ℕ) (ps : ParserState) (bs : List ℕ),
      ps.haveHeader = false → (∀ b ∈ noise, b < 256 ∧ b ≠ 0x46) → 12 ≤ bs.length →
      processStream (noise.length + fuel) ps (noise ++ bs) = processStream fuel ps bs := by
  intro noise
  induction noise with
  | nil => intro fuel ps bs _ _ _; simp
  | cons n0 nr ih =>
    intro fuel ps bs hh hnb h12
    have hn0 := hnb n0 (by simp)
    have hlen12 : 12 ≤ (n0 :: (nr ++ bs)).length := by simp; omega
    have hmag : le32 (byteAt (n0 :: (nr ++ bs)) 0) (byteAt (n0 :: (nr ++ bs)) 1)
        (byteAt (n0 :: (nr ++ bs)) 2) (byteAt (n0 :: (nr ++ bs)) 3) ≠ SID_MAGIC := by
      rw [byteAt_cons_zero]
      unfold le32 SID_MAGIC
      have h1 := hn0.1
      have h2 := hn0.2
      omega
    have hcons : (n0 :: nr) ++ bs = n0 :: (nr ++ bs) := rfl
    have hl : (n0 :: nr).length + fuel = (nr.length + fuel) + 1 := by
      simp only [List.length_cons]
      omega
    rw [hcons, hl, processStream_reject_step (nr.length + fuel) ps (n0 :: (nr ++ bs)) hh hlen12
      (Or.inl hmag)]
    exact ih fuel ps bs hh (fun b hb => hnb b (by simp [hb])) h12

/-- **C4 (counterexample).** The 10-byte compact header form
(`magic:u32, count:u16, frame:u32`) used by the host tool is *not* accepted
by the device parser: a well-formed compact frame carrying one event yields
no delivered event and no completed frame (the device reads `count` as a
`u32`, sees 65537 > 8192, and resynchronises byte-by-byte). -/
theorem C4_compact_header_rejected :
    (process_serial_stream cleanParser (encodeFrame10 1 [(1, 0x18, 0x0F, 20)])).2.2.1 = [] ∧
    (process_serial_stream cleanParser (encodeFrame10 1 [(1, 0x18, 0x0F, 20)])).2.2.2 = [] := by
  decide

/-- **C4 (amended).** The device-side frame parser accepts the 12-byte
header form (`magic:u32, count:u32, frame:u32`) the source declares: every
well-formed 12-byte-header frame is parsed from a clean parser state with
exactly its events delivered, in order, and its frame index completed. -/
theorem C4_12byte_form_parsed (frame : ℕ) (evs : List (ℕ × ℕ × ℕ × ℕ))
    (hne : evs ≠ []) (hcnt : evs.length ≤ 8192) (hf : frame < 2 ^ 32)
    (hval : ∀ e ∈ evs, validWireEvent e) :
    process_serial_stream cleanParser (encodeFrame frame evs) =
      (⟨false, ⟨SID_MAGIC, evs.length, frame⟩, 0⟩, [], evs, [frame]) := by
  unfold process_serial_stream
  obtain ⟨R, hR⟩ : ∃ R, 2 * (encodeFrame frame evs).length + 2 = (1 + evs.length) + R :=
    ⟨2 * (encodeFrame frame evs).length + 2 - (1 + evs.length), by
      rw [encodeFrame_length]; omega⟩
  rw [hR, processStream_frame_only R cleanParser frame evs rfl hne hcnt hf hval]

/-- Witness for C4's amended theorem: a concrete one-event 12-byte frame. -/
theorem C4_12byte_form_parsed_witness :
    process_serial_stream cleanParser (encodeFrame 1 [(1, 0x18, 0x0F, 20)]) =
      (⟨false, ⟨SID_MAGIC, 1, 1⟩, 0⟩, [], [(1, 0x18, 0x0F, 20)], [1]) := by
  simpa using C4_12byte_form_parsed 1 [(1, 0x18, 0x0F, 20)] (by simp) (by simp)
    (by norm_num) (by intro e he; simp at he; simp [he, validWireEvent])

/-- **C7 (counterexample).** Arbitrary noise bytes between two valid frames
*can* corrupt the stream: noise that itself contains a plausible header
(magic + small count) makes the parser consume the second frame's header
bytes as an event — a "noise" event `(0x46, 0x44, 0x49, …)` is delivered
and the second frame's real event `(5, 6, 7, 8)` is lost. -/
theorem C7_adversarial_noise_corrupts :
    (process_serial_stream cleanParser
        (encodeFrame 1 [(1, 2, 3, 4)] ++
          ([0x46, 0x44, 0x49, 0x53, 1, 0, 0, 0, 0, 0, 0, 0] ++
            encodeFrame 2 [(5, 6, 7, 8)]))).2.2.1 =
      [(1, 2, 3, 4), (0x46, 0x44, 0x49, 1)] ∧
    (5, 6, 7, 8) ∉ (process_serial_stream cleanParser
        (encodeFrame 1 [(1, 2, 3, 4)] ++
          ([0x46, 0x44, 0x49, 0x53, 1, 0, 0, 0, 0, 0, 0, 0] ++
            encodeFrame 2 [(5, 6, 7, 8)]))).2.2.1 := by
  decide

/-- **C7 (amended).** On a wrong magic or an oversized count the parser
advances its scan position by exactly one byte and rescans; consequently
noise none of whose bytes equals `0x46` (the first magic byte, so no
spurious header can begin inside the noise) injected between two valid
frames is skipped byte-by-byte: no noise byte is delivered as an event and
both frames' event streams are delivered intact. -/
theorem C7_one_byte_resync (fuel : ℕ) (ps : ParserState) (bs : List ℕ)
    (noise : List ℕ) (f1 f2 : ℕ) (evs1 evs2 : List (ℕ × ℕ × ℕ × ℕ))
    (hh : ps.haveHeader = false) (h12 : 12 ≤ bs.length)
    (hrej : le32 (byteAt bs 0) (byteAt bs 1) (byteAt bs 2) (byteAt bs 3) ≠ SID_MAGIC ∨
      8192 < le32 (byteAt bs 4) (byteAt bs 5) (byteAt bs 6) (byteAt bs 7))
    (hnb : ∀ b ∈ noise, b < 256 ∧ b ≠ 0x46)
    (hne1 : evs1 ≠ []) (hc1 : evs1.length ≤ 8192) (hf1 : f1 < 2 ^ 32)
    (hv1 : ∀ e ∈ evs1, validWireEvent e)
    (hne2 : evs2 ≠ []) (hc2 : evs2.length ≤ 8192) (hf2 : f2 < 2 ^ 32)
    (hv2 : ∀ e ∈ evs2, validWireEvent e) :
    processStream (fuel + 1) ps bs = processStream fuel ps bs.tail ∧
    process_serial_stream cleanParser
        (encodeFrame f1 evs1 ++ (noise ++ encodeFrame f2 evs2)) =
      (⟨false, ⟨SID_MAGIC, evs2.length, f2⟩, 0⟩, [], evs1 ++ evs2, [f1, f2]) := by
  refine ⟨processStream_reject_step fuel ps bs hh h12 hrej, ?_⟩
  unfold process_serial_stream
  obtain ⟨R, hR⟩ : ∃ R,
      2 * (encodeFrame f1 evs1 ++ (noise ++ encodeFrame f2 evs2)).length + 2 =
        (1 + evs1.length) + (noise.length + ((1 + evs2.length) + R)) :=
    ⟨2 * (encodeFrame f1 evs1 ++ (noise ++ encodeFrame f2 evs2)).length + 2 -
        ((1 + evs1.length) + (noise.length + (1 + evs2.length))), by
      simp only [List.length_append, encodeFrame_length]
      omega⟩
  rw [hR, processStream_frame (noise.length + ((1 + evs2.length) + R)) cleanParser f1 evs1
    (noise ++ encodeFrame f2 evs2) rfl hne1 hc1 hf1 hv1,
    processStream_noise noise ((1 + evs2.length) + R) ⟨false, ⟨SID_MAGIC, evs1.length, f1⟩, 0⟩
      (encodeFrame f2 evs2) rfl hnb (by rw [encodeFrame_length]; omega),
    processStream_frame_only R ⟨false, ⟨SID_MAGIC, evs1.length, f1⟩, 0⟩ f2 evs2 rfl
      hne2 hc2 hf2 hv2]

/-- Witness for C7's amended theorem: a reject step on a concrete buffer,
and two concrete frames separated by `0xAA` noise parsed intact. -/
theorem C7_one_byte_resync_witness :
    processStream (5 + 1) cleanParser
        [0, 0, 0, 0, 0, 0, 0, 0, 0, 0, 0, 0] =
      processStream 5 cleanParser ([0, 0, 0, 0, 0, 0, 0, 0, 0, 0, 0, 0] : List ℕ).tail ∧
    process_serial_stream cleanParser
        (encodeFrame 1 [(1, 2, 3, 4)] ++
          ([0xAA, 0xAA] ++ encodeFrame 2 [(5, 6, 7, 8)])) =
      (⟨false, ⟨SID_MAGIC, 1, 2⟩, 0⟩, [], [(1, 2, 3, 4), (5, 6, 7, 8)], [1, 2]) := by
  have h := C7_one_byte_resync 5 cleanParser [0, 0, 0, 0, 0, 0, 0, 0, 0, 0, 0, 0]
    [0xAA, 0xAA] 1 2 [(1, 2, 3, 4)] [(5, 6, 7, 8)] rfl (by decide) (by decide)
    (by decide) (by simp) (by simp) (by norm_num)
    (by intro e he; simp at he; simp [he, validWireEvent])
    (by simp) (by simp) (by norm_num)
    (by intro e he; simp at he; simp [he, validWireEvent])
  simpa using h

/-- **C3 (counterexample).** A frame header whose count field is `0xFFFF`
(the command sentinel the host tools send: `magic`, `count:u16 = 0xFFFF`,
`frame = 0`, then the 4-byte `CYCLE_MODE` command) is not consumed as a
command: the parser rejects the header as oversized, slides byte-by-byte
past the magic, delivers nothing, completes nothing, and leaves the
command bytes unconsumed in the buffer. -/
theorem C3_command_frame_ignored :
    (process_serial_stream cleanParser
        (toLE4 SID_MAGIC ++ ([0xFF, 0xFF] ++ (toLE4 0 ++ [0x01, 0x00, 0x00, 0x00])))).1 =
      cleanParser ∧
    (process_serial_stream cleanParser
        (toLE4 SID_MAGIC ++ ([0xFF, 0xFF] ++ (toLE4 0 ++ [0x01, 0x00, 0x00, 0x00])))).2.1 =
      [0x53, 0xFF, 0xFF, 0, 0, 0, 0, 1, 0, 0, 0] ∧
    (process_serial_stream cleanParser
        (toLE4 SID_MAGIC ++ ([0xFF, 0xFF] ++ (toLE4 0 ++ [0x01, 0x00, 0x00, 0x00])))).2.2.1 =
      [] ∧
    (process_serial_stream cleanParser
        (toLE4 SID_MAGIC ++ ([0xFF, 0xFF] ++ (toLE4 0 ++ [0x01, 0x00, 0x00, 0x00])))).2.2.2 =
      [] := by
  decide

/-- **C3 (amended).** A parsed frame header whose (32-bit) count field
equals `0xFFFF` is treated as an oversized count: the parser advances its
scan position by exactly one byte and rescans — there is no command-record
path.  Moreover `sid_engine_set_model` only ever selects both-6581 or
both-8580: it never produces the split `(6581, 8580)` configuration, so no
three-state model cycle exists. -/
theorem C3_no_command_dispatch (fuel : ℕ) (ps : ParserState) (bs : List ℕ)
    (hh : ps.haveHeader = false) (h12 : 12 ≤ bs.length)
    (hcmd : le32 (byteAt bs 4) (byteAt bs 5) (byteAt bs 6) (byteAt bs 7) = 0xFFFF) :
    processStream (fuel + 1) ps bs = processStream fuel ps bs.tail ∧
    (∀ (b : Bool) (cur : Bool × Bool), sid_engine_set_model b cur = (b, b)) ∧
    (∀ (b : Bool) (cur : Bool × Bool), sid_engine_set_model b cur ≠ (true, false)) := by
  refine ⟨processStream_reject_step fuel ps bs hh h12 (Or.inr (by rw [hcmd]; norm_num)),
    fun b cur => rfl, fun b cur => ?_⟩
  cases b <;> simp [sid_engine_set_model, sid_engine_set_channel_models]

/-- Witness for C3's amended theorem: the concrete command frame makes the
parser slide by one byte, and `sid_engine_set_model` lands on a non-split
configuration. -/
theorem C3_no_command_dispatch_witness :
    processStream (5 + 1) cleanParser
        [0x46, 0x44, 0x49, 0x53, 0xFF, 0xFF, 0, 0, 0, 0, 1, 0, 0, 0] =
      processStream 5 cleanParser
        ([0x46, 0x44, 0x49, 0x53, 0xFF, 0xFF, 0, 0, 0, 0, 1, 0, 0, 0] : List ℕ).tail ∧
    (∀ (b : Bool) (cur : Bool × Bool), sid_engine_set_model b cur = (b, b)) ∧
    (∀ (b : Bool) (cur : Bool × Bool), sid_engine_set_model b cur ≠ (true, false)) :=
  C3_no_command_dispatch 5 cleanParser
    [0x46, 0x44, 0x49, 0x53, 0xFF, 0xFF, 0, 0, 0, 0, 1, 0, 0, 0] rfl (by decide) (by decide)

/-! ### Delta conservation lemmas (for C1) -/

lemma deltaSum_append (a b : List TimedEvent) :
    deltaSum (a ++ b) = deltaSum a + deltaSum b := by
  simp [deltaSum]

lemma apply_zero_loop_conserve (q : List TimedEvent) (c : ℕ) :
    deltaSum (apply_zero_loop q c).1 + deltaSum (apply_zero_loop q c).2.2.2 = deltaSum q := by
  induction q generalizing c with
  | nil => simp [apply_zero_loop, deltaSum]
  | cons ev rest ih =>
    by_cases h : ev.delta = 0
    · simp only [apply_zero_loop, h, if_pos]
      have := ih (headDelta rest)
      simp only [deltaSum, List.map_cons, List.sum_cons] at *
      omega
    · simp [apply_zero_loop, h, deltaSum]

lemma apply_zero_delta_events_conserve (s : EngineState) :
    deltaSum (apply_zero_delta_events s).1.queue + deltaSum (apply_zero_delta_events s).2.2 =
      deltaSum s.queue := by
  simpa [apply_zero_delta_events] using apply_zero_loop_conserve s.queue s.cyclesToNext

lemma apply_zero_delta_events_dropCount (s : EngineState) :
    (apply_zero_delta_events s).1.dropCount = s.dropCount := by
  simp [apply_zero_delta_events]

/-- The render loop only moves deltas from the queue to the applied-events
list, and never touches the drop counter. -/
lemma render_loop_conserve :
    ∀ (fuel remaining : ℕ) (s : EngineState),
      deltaSum (render_loop fuel remaining s).1.queue +
        deltaSum (render_loop fuel remaining s).2.2 = deltaSum s.queue ∧
      (render_loop fuel remaining s).1.dropCount = s.dropCount := by
  intro fuel
  induction fuel with
  | zero => intro r s; simp [render_loop, deltaSum]
  | succ fuel ih =>
    intro r s
    by_cases hr : r = 0
    · subst hr; simp [render_loop, deltaSum]
    · rw [render_loop]
      simp only [if_neg hr]
      by_cases hg : s.queue ≠ [] ∧ s.cyclesToNext ≠ UINT32_MAX
      · rw [if_pos hg]
        by_cases hlt : runOf r s < s.cyclesToNext
        · rw [if_pos hlt]
          have hrec := ih (r - runOf r s)
            { s with cyclesToNext := s.cyclesToNext - runOf r s }
          refine ⟨?_, ?_⟩
          · simpa using hrec.1
          · simpa using hrec.2
        · rw [if_neg hlt]
          obtain ⟨ev, rest, hq⟩ := List.exists_cons_of_ne_nil hg.1
          have hpop : pop_event { s with cyclesToNext := s.cyclesToNext - runOf r s } =
              (some ev, { s with queue := rest, cyclesToNext := headDelta rest }) := by
            simp [pop_event, hq]
          simp only [hpop]
          set s1 : EngineState := { s with queue := rest, cyclesToNext := headDelta rest }
          have hdrain := apply_zero_delta_events_conserve s1
          have hdrop := apply_zero_delta_events_dropCount s1
          have hrec := ih (r - runOf r s) (apply_zero_delta_events s1).1
          refine ⟨?_, by simp [hrec.2, hdrop]⟩
          simp only [deltaSum_append]
          have hs1q : deltaSum s1.queue = deltaSum rest := rfl
          have hsq : deltaSum s.queue = ev.delta + deltaSum rest := by
            simp [hq, deltaSum]
          simp only [deltaSum, List.map_cons, List.sum_cons, List.map_nil,
            List.sum_nil] at hdrain hrec hsq ⊢
          omega
      · rw [if_neg hg]
        have hrec := ih (r - runOf r s) s
        refine ⟨?_, ?_⟩
        · simpa using hrec.1
        · simpa using hrec.2

lemma drain_then_loop_conserve (s2 : EngineState) (fuel rem : ℕ) :
    deltaSum (render_loop fuel rem (apply_zero_delta_events s2).1).1.queue +
      (deltaSum (apply_zero_delta_events s2).2.2 +
        deltaSum (render_loop fuel rem (apply_zero_delta_events s2).1).2.2) =
      deltaSum s2.queue ∧
    (render_loop fuel rem (apply_zero_delta_events s2).1).1.dropCount = s2.dropCount := by
  have hdrain := apply_zero_delta_events_conserve s2
  have hdc := apply_zero_delta_events_dropCount s2
  have hrec := render_loop_conserve fuel rem (apply_zero_delta_events s2).1
  exact ⟨by omega, by rw [hrec.2, hdc]⟩

lemma render_frame_conserve (out0 out1 : ℤ) (s : EngineState) :
    deltaSum (sid_engine_render_frame out0 out1 false false s).1.queue +
      deltaSum (sid_engine_render_frame out0 out1 false false s).2.2.2.2 =
      deltaSum s.queue ∧
    (sid_engine_render_frame out0 out1 false false s).1.dropCount = s.dropCount := by
  rw [sid_engine_render_frame]
  norm_num
  refine ⟨?_, (drain_then_loop_conserve _ _ _).2⟩
  rw [deltaSum_append]
  exact (drain_then_loop_conserve _ _ _).1

/-- Pushing into an empty queue (with the sentinel in `cycles_to_next` and a
non-zero delta): the event is stored and `cycles_to_next` re-read from it. -/
lemma queue_event_empty (s : EngineState) (c a v d : ℕ)
    (hq : s.queue = []) (hctn : s.cyclesToNext = UINT32_MAX) (hd : d ≠ 0) :
    sid_engine_queue_event s c a v d =
      ({ s with queue := [⟨c, a, v, d⟩], cyclesToNext := d }, [], []) := by
  have hnf : s.queue.length + 1 ≠ kEventQueueSize := by
    rw [hq]
    norm_num [kEventQueueSize]
  rw [sid_engine_queue_event]
  simp only [if_neg hnf]
  rw [if_pos (by simpa using hctn)]
  rw [apply_zero_delta_events_noop_head _ ⟨c, a, v, d⟩ [] (by simp [hq]) hd]
  simp [hq, headDelta]

/-- The full-queue push: `drop_oldest_event` removes the head, folds its
delta (32-bit wrap) into the new head, bumps the drop counter, and the new
event is then appended.  (The hypothesis on the merged delta rules out the
sentinel collision, in which case the eager drain would additionally run.) -/
lemma queue_event_full (s : EngineState) (c a v dlt : ℕ) (d0 nx : TimedEvent)
    (t : List TimedEvent) (hq : s.queue = d0 :: nx :: t)
    (hfull : s.queue.length + 1 = kEventQueueSize)
    (hnm : (nx.delta + d0.delta) % 2 ^ 32 ≠ UINT32_MAX) :
    sid_engine_queue_event s c a v dlt =
      ({ s with
          queue := ({ nx with delta := (nx.delta + d0.delta) % 2 ^ 32 }) ::
            (t ++ [⟨c, a, v, dlt⟩]),
          cyclesToNext := (nx.delta + d0.delta) % 2 ^ 32,
          dropCount := s.dropCount + 1 }, [], []) := by
  have hdrop : drop_oldest_event s =
      { s with
        queue := ({ nx with delta := (nx.delta + d0.delta) % 2 ^ 32 }) :: t,
        dropCount := s.dropCount + 1,
        cyclesToNext := (nx.delta + d0.delta) % 2 ^ 32 } := by
    simp only [drop_oldest_event, hq]
  rw [sid_engine_queue_event]
  simp only [if_pos hfull, hdrop]
  rw [if_neg (by simpa using hnm)]
  simp [List.cons_append]

/-- One push conserves the queued-plus-applied delta total modulo `2^32`. -/
lemma queue_event_conserve (s : EngineState) (c a v dlt : ℕ) :
    (deltaSum (sid_engine_queue_event s c a v dlt).1.queue +
      deltaSum (sid_engine_queue_event s c a v dlt).2.2) % 2 ^ 32 =
    (deltaSum s.queue + dlt) % 2 ^ 32 := by
  rw [sid_engine_queue_event]
  by_cases hfull : s.queue.length + 1 = kEventQueueSize
  · -- drop the oldest, merging its delta into the new head modulo 2^32
    have hlen2 : 2 ≤ s.queue.length := by
      have : kEventQueueSize = 8192 := rfl
      omega
    obtain ⟨d0, q1, hq⟩ := List.exists_cons_of_ne_nil
      (by intro h; rw [h] at hlen2; simp at hlen2 : s.queue ≠ [])
    obtain ⟨nx, t, hq1⟩ := List.exists_cons_of_ne_nil
      (by intro h; rw [hq, h] at hlen2; simp at hlen2 : q1 ≠ [])
    subst hq1
    have hdrop : drop_oldest_event s =
        { s with
          queue := ({ nx with delta := (nx.delta + d0.delta) % 2 ^ 32 }) :: t,
          dropCount := s.dropCount + 1,
          cyclesToNext := (nx.delta + d0.delta) % 2 ^ 32 } := by
      simp only [drop_oldest_event, hq]
    simp only [if_pos hfull, hdrop]
    have hsum : deltaSum s.queue = d0.delta + (nx.delta + deltaSum t) := by
      simp [hq, deltaSum]
    by_cases hctn : (nx.delta + d0.delta) % 2 ^ 32 = UINT32_MAX
    · rw [if_pos (by simpa using hctn)]
      simp only [List.cons_append]
      have hc := apply_zero_delta_events_conserve
        { s with
          queue := ({ nx with delta := (nx.delta + d0.delta) % 2 ^ 32 }) :: (t ++ [⟨c, a, v, dlt⟩]),
          cyclesToNext := headDelta
            (({ nx with delta := (nx.delta + d0.delta) % 2 ^ 32 }) :: (t ++ [⟨c, a, v, dlt⟩])),
          dropCount := s.dropCount + 1 }
      simp only at hc
      rw [hc]
      simp only [deltaSum, List.map_cons, List.sum_cons, List.map_append, List.sum_append,
        List.map_nil, List.sum_nil] at hsum ⊢
      omega
    · rw [if_neg (by simpa using hctn)]
      simp only [deltaSum, List.map_cons, List.sum_cons, List.map_append, List.sum_append,
        List.map_nil, List.sum_nil] at hsum ⊢
      omega
  · simp only [if_neg hfull]
    by_cases hctn : s.cyclesToNext = UINT32_MAX
    · rw [if_pos (by simpa using hctn)]
      have hc := apply_zero_delta_events_conserve
        { s with
          queue := s.queue ++ [⟨c, a, v, dlt⟩],
          cyclesToNext := headDelta (s.queue ++ [⟨c, a, v, dlt⟩]) }
      simp only at hc
      rw [hc]
      simp [deltaSum_append, deltaSum]
    · rw [if_neg (by simpa using hctn)]
      simp [deltaSum_append, deltaSum]

/-- Running any operation sequence from any state conserves the
queued-plus-applied delta total modulo `2^32` relative to the pushed total. -/
lemma runOps_conserve :
    ∀ (ops : List EngineOp) (s : EngineState),
      (deltaSum (runOps s ops).1.queue + deltaSum (runOps s ops).2) % 2 ^ 32 =
        (deltaSum s.queue + pushedDeltaSum ops) % 2 ^ 32 := by
  intro ops
  induction ops with
  | nil => intro s; simp [runOps, pushedDeltaSum, deltaSum]
  | cons op ops ih =>
    intro s
    have h32 : (0:ℕ) < 2 ^ 32 := by norm_num
    cases op with
    | push c a v d =>
      simp only [runOps, deltaSum_append, pushedDeltaSum]
      have h1 := queue_event_conserve s c a v d
      have h2 := ih (sid_engine_queue_event s c a v d).1
      -- the delivered-during-push deltas and the rest compose modulo 2^32
      have h2' : (deltaSum (runOps (sid_engine_queue_event s c a v d).1 ops).1.queue +
          deltaSum (runOps (sid_engine_queue_event s c a v d).1 ops).2) % 2 ^ 32 =
          (deltaSum (sid_engine_queue_event s c a v d).1.queue +
            pushedDeltaSum ops) % 2 ^ 32 := h2
      omega
    | render =>
      simp only [runOps, deltaSum_append, pushedDeltaSum]
      have h1 := (render_frame_conserve 0 0 s).1
      have h2 := ih (sid_engine_render_frame 0 0 false false s).1
      omega

/-- Splitting a run of operations. -/
lemma runOps_append (l1 l2 : List EngineOp) :
    ∀ s : EngineState, runOps s (l1 ++ l2) =
      ((runOps (runOps s l1).1 l2).1,
       (runOps s l1).2 ++ (runOps (runOps s l1).1 l2).2) := by
  induction l1 with
  | nil => intro s; simp [runOps]
  | cons op l1 ih =>
    intro s
    cases op with
    | push c a v d => simp [runOps, ih]
    | render => simp [runOps, ih]

lemma pushedEvents_replicate (n : ℕ) (c a v d : ℕ) :
    pushedEvents (List.replicate n (EngineOp.push c a v d)) =
      List.replicate n (⟨c, a, v, d⟩ : TimedEvent) := by
  induction n with
  | zero => rfl
  | succ n ih => simp [List.replicate_succ, pushedEvents, ih]

lemma pushedDeltaSum_append (l1 l2 : List EngineOp) :
    pushedDeltaSum (l1 ++ l2) = pushedDeltaSum l1 + pushedDeltaSum l2 := by
  induction l1 with
  | nil => simp [pushedDeltaSum]
  | cons op l1 ih => cases op <;> simp [pushedDeltaSum, ih] <;> omega

lemma pushedDeltaSum_replicate_zero (n : ℕ) (c a v : ℕ) :
    pushedDeltaSum (List.replicate n (EngineOp.push c a v 0)) = 0 := by
  induction n with
  | zero => rfl
  | succ n ih => simp [List.replicate_succ, pushedDeltaSum, ih]

lemma deltaSum_replicate_zero (n : ℕ) (c a v : ℕ) :
    deltaSum (List.replicate n (⟨c, a, v, 0⟩ : TimedEvent)) = 0 := by
  simp [deltaSum, List.map_replicate]

/-- One-step unfolding of `runOps` on a push (first component). -/
lemma runOps_push_fst (s : EngineState) (c a v d : ℕ) (ops : List EngineOp) :
    (runOps s (EngineOp.push c a v d :: ops)).1 =
      (runOps (sid_engine_queue_event s c a v d).1 ops).1 := rfl

/-- One-step unfolding of `runOps` on a push (delivered-event trace). -/
lemma runOps_push_snd (s : EngineState) (c a v d : ℕ) (ops : List EngineOp) :
    (runOps s (EngineOp.push c a v d :: ops)).2 =
      (sid_engine_queue_event s c a v d).2.2 ++
        (runOps (sid_engine_queue_event s c a v d).1 ops).2 := rfl

/-- Projections of `runOps_append`, stated over variable lists so they
rewrite without forcing any evaluation of `runOps`. -/
lemma runOps_append_fst (l1 l2 : List EngineOp) (s : EngineState) :
    (runOps s (l1 ++ l2)).1 = (runOps (runOps s l1).1 l2).1 := by
  rw [runOps_append]

lemma runOps_append_snd (l1 l2 : List EngineOp) (s : EngineState) :
    (runOps s (l1 ++ l2)).2 =
      (runOps s l1).2 ++ (runOps (runOps s l1).1 l2).2 := by
  rw [runOps_append]

lemma pushedEvents_push_cons (c a v d : ℕ) (ops : List EngineOp) :
    pushedEvents (EngineOp.push c a v d :: ops) =
      (⟨c, a, v, d⟩ : TimedEvent) :: pushedEvents ops := rfl

lemma pushedDeltaSum_push_cons (c a v d : ℕ) (ops : List EngineOp) :
    pushedDeltaSum (EngineOp.push c a v d :: ops) = d + pushedDeltaSum ops := rfl

/-- **C1 (counterexample).** Exact (unwrapped) delta conservation fails:
filling the queue with a `2^32-1` delta followed by a `1` delta and zeros,
the 8192nd push drops the oldest event and the 32-bit merge
`1 + (2^32 - 1)` wraps to `0`, so the sum of all deltas ever applied or
still queued (0) differs from the producer-side total (`2^32`). -/
theorem C1_wraparound_breaks_exact_conservation :
    deltaSum (runOps (initState 44100)
        (EngineOp.push 0 0 0 (2 ^ 32 - 1) ::
          ((EngineOp.push 0 0 0 1 :: List.replicate 8189 (EngineOp.push 0 0 0 0)) ++
            [EngineOp.push 0 0 0 0]))).1.queue +
      deltaSum (runOps (initState 44100)
        (EngineOp.push 0 0 0 (2 ^ 32 - 1) ::
          ((EngineOp.push 0 0 0 1 :: List.replicate 8189 (EngineOp.push 0 0 0 0)) ++
            [EngineOp.push 0 0 0 0]))).2 ≠
    pushedDeltaSum
      (EngineOp.push 0 0 0 (2 ^ 32 - 1) ::
        ((EngineOp.push 0 0 0 1 :: List.replicate 8189 (EngineOp.push 0 0 0 0)) ++
          [EngineOp.push 0 0 0 0])) := by
  have h1 : sid_engine_queue_event (initState 44100) 0 0 0 (2 ^ 32 - 1) =
      ({ initState 44100 with
          queue := [⟨0, 0, 0, 2 ^ 32 - 1⟩], cyclesToNext := 2 ^ 32 - 1 }, [], []) :=
    queue_event_empty _ 0 0 0 _ rfl rfl (by norm_num)
  set s1 : EngineState := { initState 44100 with
      queue := [⟨0, 0, 0, 2 ^ 32 - 1⟩], cyclesToNext := 2 ^ 32 - 1 } with hs1
  have hq1 : s1.queue = [(⟨0, 0, 0, 2 ^ 32 - 1⟩ : TimedEvent)] := by rw [hs1]
  have hpe : pushedEvents (EngineOp.push 0 0 0 1 ::
      List.replicate 8189 (EngineOp.push 0 0 0 0)) =
      (⟨0, 0, 0, 1⟩ : TimedEvent) :: List.replicate 8189 (⟨0, 0, 0, 0⟩ : TimedEvent) := by
    rw [pushedEvents_push_cons, pushedEvents_replicate]
  have hmid := runOps_stuck
    (EngineOp.push 0 0 0 1 :: List.replicate 8189 (EngineOp.push 0 0 0 0)) s1
    ⟨0, 0, 0, 2 ^ 32 - 1⟩ [] (by rw [hs1]; rfl) hq1 rfl (by
      rw [hq1, hpe]
      simp only [List.length_cons, List.length_nil, List.length_replicate]
      norm_num [kEventQueueSize])
  set sMid : EngineState := (runOps s1
    (EngineOp.push 0 0 0 1 :: List.replicate 8189 (EngineOp.push 0 0 0 0))).1 with hsMid
  have hqMid : sMid.queue = (⟨0, 0, 0, 2 ^ 32 - 1⟩ : TimedEvent) ::
      (⟨0, 0, 0, 1⟩ : TimedEvent) :: List.replicate 8189 (⟨0, 0, 0, 0⟩ : TimedEvent) := by
    rw [hsMid, hmid.1, hpe, List.nil_append]
  have hfin := queue_event_full sMid 0 0 0 0 ⟨0, 0, 0, 2 ^ 32 - 1⟩ ⟨0, 0, 0, 1⟩
    (List.replicate 8189 (⟨0, 0, 0, 0⟩ : TimedEvent)) hqMid
    (by
      rw [hqMid]
      simp only [List.length_cons, List.length_replicate]
      norm_num [kEventQueueSize])
    (by norm_num [UINT32_MAX])
  have h1a : (sid_engine_queue_event (initState 44100) 0 0 0 (2 ^ 32 - 1)).1 = s1 := by
    rw [h1]
  have h1b : (sid_engine_queue_event (initState 44100) 0 0 0 (2 ^ 32 - 1)).2.2 = [] := by
    rw [h1]
  rw [runOps_push_fst, runOps_push_snd, h1a, h1b, List.nil_append]
  rw [runOps_append_fst, runOps_append_snd, ← hsMid, hmid.2.2, List.nil_append]
  have hfq : (runOps sMid [EngineOp.push 0 0 0 0]).1.queue =
      (⟨0, 0, 0, (1 + (2 ^ 32 - 1)) % 2 ^ 32⟩ : TimedEvent) ::
        (List.replicate 8189 (⟨0, 0, 0, 0⟩ : TimedEvent) ++
          [(⟨0, 0, 0, 0⟩ : TimedEvent)]) := by
    rw [runOps_push_fst, hfin]
    rfl
  have hfd : (runOps sMid [EngineOp.push 0 0 0 0]).2 = [] := by
    rw [runOps_push_snd, hfin]
    rfl
  rw [hfq, hfd]
  have hsum : pushedDeltaSum
      (EngineOp.push 0 0 0 (2 ^ 32 - 1) ::
        ((EngineOp.push 0 0 0 1 :: List.replicate 8189 (EngineOp.push 0 0 0 0)) ++
          [EngineOp.push 0 0 0 0])) = 2 ^ 32 := by
    rw [pushedDeltaSum_push_cons, pushedDeltaSum_append, pushedDeltaSum_push_cons,
      pushedDeltaSum_replicate_zero, pushedDeltaSum_push_cons]
    norm_num [pushedDeltaSum]
  rw [hsum]
  have hds : deltaSum ((⟨0, 0, 0, (1 + (2 ^ 32 - 1)) % 2 ^ 32⟩ : TimedEvent) ::
      (List.replicate 8189 (⟨0, 0, 0, 0⟩ : TimedEvent) ++
        [(⟨0, 0, 0, 0⟩ : TimedEvent)])) = 0 := by
    simp only [deltaSum, List.map_cons, List.map_append, List.map_replicate,
      List.map_nil, List.sum_cons, List.sum_append, List.sum_replicate,
      List.sum_nil, smul_eq_mul]
    norm_num
  rw [hds]
  norm_num [deltaSum]

/-- **C1 (amended).** Overflow push mechanics: when the queue is full,
`sid_engine_queue_event` removes the oldest (head) event, adds its delta to
the new head's delta *with 32-bit wrap-around*, increments the
dropped-event counter by exactly one, and appends the new event.
Consequently, over any operation sequence from the initial state, the sum
of the deltas of all events ever applied plus those still queued equals the
producer-side total *modulo `2^32`* (exact equality fails when a merge
wraps, see the counterexample). -/
theorem C1_overflow_drop_merge_and_conservation :
    (∀ (s : EngineState) (c a v dlt : ℕ) (d0 nx : TimedEvent) (t : List TimedEvent),
      s.queue = d0 :: nx :: t → s.queue.length + 1 = kEventQueueSize →
      (nx.delta + d0.delta) % 2 ^ 32 ≠ UINT32_MAX →
      sid_engine_queue_event s c a v dlt =
        ({ s with
            queue := ({ nx with delta := (nx.delta + d0.delta) % 2 ^ 32 }) ::
              (t ++ [⟨c, a, v, dlt⟩]),
            cyclesToNext := (nx.delta + d0.delta) % 2 ^ 32,
            dropCount := s.dropCount + 1 }, [], [])) ∧
    (∀ (rate : ℕ) (ops : List EngineOp),
      (deltaSum (runOps (initState rate) ops).1.queue +
        deltaSum (runOps (initState rate) ops).2) % 2 ^ 32 =
      pushedDeltaSum ops % 2 ^ 32) := by
  refine ⟨queue_event_full, fun rate ops => ?_⟩
  have := runOps_conserve ops (initState rate)
  simpa [initState, deltaSum] using this

/-- Witness for C1's amended theorem: a full queue (8191 events, heads with
deltas 5 and 7), one more push merges `5` into the new head (`7 + 5 = 12`),
bumps the drop counter to 1, and appends the new event. -/
theorem C1_overflow_drop_merge_and_conservation_witness :
    sid_engine_queue_event
        ⟨⟨0, 0, 0, 5⟩ :: ⟨0, 0, 0, 7⟩ :: List.replicate 8189 (⟨0, 0, 0, 0⟩ : TimedEvent),
          5, 0, 10, 0⟩ 1 2 3 4 =
      (⟨⟨0, 0, 0, (7 + 5) % 2 ^ 32⟩ ::
          (List.replicate 8189 (⟨0, 0, 0, 0⟩ : TimedEvent) ++ [⟨1, 2, 3, 4⟩]),
        (7 + 5) % 2 ^ 32, 0 + 1, 10, 0⟩, [], []) :=
  C1_overflow_drop_merge_and_conservation.1
    ⟨⟨0, 0, 0, 5⟩ :: ⟨0, 0, 0, 7⟩ :: List.replicate 8189 (⟨0, 0, 0, 0⟩ : TimedEvent),
      5, 0, 10, 0⟩ 1 2 3 4 ⟨0, 0, 0, 5⟩ ⟨0, 0, 0, 7⟩
    (List.replicate 8189 (⟨0, 0, 0, 0⟩ : TimedEvent)) rfl
    (by
      show ((⟨0, 0, 0, 5⟩ : TimedEvent) :: (⟨0, 0, 0, 7⟩ : TimedEvent) ::
          List.replicate 8189 (⟨0, 0, 0, 0⟩ : TimedEvent)).length + 1 = kEventQueueSize
      simp only [List.length_cons, List.length_replicate]
      norm_num [kEventQueueSize])
    (by norm_num [UINT32_MAX])

/-- **C10.** If either output pointer of `sid_engine_render_frame` is null,
the function writes 0 through the non-null pointer and returns with the
engine state unchanged: no cell is clocked or written, no event is applied,
and the queue, `cycles_to_next`, drop count and `cycle_residual` are all as
they were. -/
theorem C10_null_pointer_no_effect (out0 out1 : ℤ) (leftNull rightNull : Bool)
    (s : EngineState) (h : leftNull = true ∨ rightNull = true) :
    sid_engine_render_frame out0 out1 leftNull rightNull s =
      (s, (if leftNull then none else some 0), (if rightNull then none else some 0),
       [], []) := by
  rcases h with h | h <;> subst h <;> simp [sid_engine_render_frame]

/-- Witness for C10: a concrete call with a null left pointer. -/
theorem C10_null_pointer_no_effect_witness :
    sid_engine_render_frame 5 7 true false (initState 44100) =
      (initState 44100, none, some 0, [], []) := by
  simpa using C10_null_pointer_no_effect 5 7 true false (initState 44100) (Or.inl rfl)

end Siddler
